import Mathlib

/-!
# Verification of the `ov-vectordb` storage engine

A shallow embedding, in Lean 4, of the parts of the `ov-vectordb` crate
(crates/ov-vectordb/src) that the checked claims are about:

* the JSON-like dynamic value type (`serde_json::Value`), with numbers split
  into integer and float representations exactly as `serde_json::Number` does;
* the filter DSL (`filter/mod.rs`): parsing and predicate evaluation;
* the distance kernels (`distance/mod.rs`);
* the flat index (`index/flat.rs`): search and the binary load path;
* the HNSW index state (`index/hnsw.rs`): delete, needs_rebuild, save/load;
* the collection layer (`collection/mod.rs`): upsert/fetch/delete/search,
  persistence and recovery;
* the file store's atomic-replace discipline (`store/file_store.rs`) as a
  trace of file-system operations;
* the project group layer (`project/mod.rs`).

Modelling conventions:
* `u64` labels and `usize` values are modelled as `Nat`; where two's-complement
  wrap-around matters (`i as u64`) it is written explicitly as `% 2^64`.
* `f32`/`f64` arithmetic is modelled exactly over `ℚ`.  `sqrt` (used only by
  cosine normalisation) is modelled by `ratSqrt`, which is exact on
  perfect-square rationals (the domain exercised by the claims, which assume
  unit vectors) and returns 0 elsewhere.  IEEE-754 binary32 *decoding* of a
  bit pattern to its exact rational value is modelled by `f32DecodeBits`.
* `HashMap`s are modelled as association lists with first-match lookup;
  insertion replaces any existing binding, deletion removes the binding.
* `HashSet`s of internal ids are modelled as `Finset Nat`.
* Fallible Rust functions returning `Result` are modelled with `Except`.
* File I/O is modelled at the data level (what is written / what is read
  back), except for the atomic-write claim where the individual file-system
  operations are modelled as an explicit trace.
-/

namespace OV

/-! ## JSON-like values (`serde_json::Value`) -/

/-- `serde_json::Number`: stored either as an integer (the `PosInt`/`NegInt`
representations) or as a float (`Float`), never both. -/
inductive JNum where
  | intVal (i : Int)
  | floatVal (q : ℚ)
deriving DecidableEq

/-- `serde_json::Value`. Objects keep their (sorted) entry list. -/
inductive Value where
  | null
  | bool (b : Bool)
  | num (n : JNum)
  | str (s : String)
  | arr (xs : List Value)
  | obj (kvs : List (String × Value))

mutual

/-- Structural equality on values (`Value: PartialEq`); note that an integer
and a float `Number` are never equal, exactly as in `serde_json`. -/
def Value.beq : Value → Value → Bool
  | .null, .null => true
  | .bool a, .bool b => a == b
  | .num a, .num b => a == b
  | .str a, .str b => a == b
  | .arr xs, .arr ys => valueListBeq xs ys
  | .obj xs, .obj ys => objListBeq xs ys
  | _, _ => false

def valueListBeq : List Value → List Value → Bool
  | [], [] => true
  | x :: xs, y :: ys => Value.beq x y && valueListBeq xs ys
  | _, _ => false

def objListBeq : List (String × Value) → List (String × Value) → Bool
  | [], [] => true
  | (ka, va) :: xs, (kb, vb) :: ys => ka == kb && Value.beq va vb && objListBeq xs ys
  | _, _ => false

end

instance : BEq Value := ⟨Value.beq⟩

/-- `Number::as_u64`: `Some` exactly for the integer representations that fit
in `u64`. -/
def JNum.asU64 : JNum → Option Nat
  | .intVal i => if 0 ≤ i ∧ i < 2 ^ 64 then some i.toNat else none
  | .floatVal _ => none

/-- `Number::as_i64`: `Some` exactly for the integer representations that fit
in `i64`. -/
def JNum.asI64 : JNum → Option Int
  | .intVal i => if -(2 ^ 63) ≤ i ∧ i < 2 ^ 63 then some i else none
  | .floatVal _ => none

/-- `Number::as_f64`. The conversion of a large integer to `f64` rounds in
Rust; it is modelled as exact (the claims never exercise integers above
2^53). -/
def JNum.asF64 : JNum → Option ℚ
  | .intVal i => some (i : ℚ)
  | .floatVal q => some q

/-- `Value::as_f64`. -/
def Value.asF64 : Value → Option ℚ
  | .num n => n.asF64
  | _ => none

/-- `Value::as_str`. -/
def Value.asStr : Value → Option String
  | .str s => some s
  | _ => none

/-- `Value::as_array`. -/
def Value.asArray : Value → Option (List Value)
  | .arr xs => some xs
  | _ => none

/-! ## Association-list maps (model of `HashMap`) -/

/-- First-match lookup, the model of `HashMap::get`. -/
def lookupA {α β : Type} [DecidableEq α] (l : List (α × β)) (k : α) : Option β :=
  match l with
  | [] => none
  | (k', v) :: rest => if k' = k then some v else lookupA rest k

/-- Remove the binding of `k`, the model of `HashMap::remove`. -/
def eraseA {α β : Type} [DecidableEq α] (l : List (α × β)) (k : α) : List (α × β) :=
  l.filter (fun p => p.1 ≠ k)

/-- Insert-or-replace, the model of `HashMap::insert`. -/
def insertA {α β : Type} [DecidableEq α] (k : α) (v : β) (l : List (α × β)) :
    List (α × β) :=
  (k, v) :: eraseA l k

/-- Field-map lookup (`HashMap<String, Value>::get`). -/
def getField (fields : List (String × Value)) (name : String) : Option Value :=
  lookupA fields name

/-! ## The filter DSL (`filter/mod.rs`) -/

/-- `Filter`, the filter condition tree.  The Rust `Prefix` constructor's
`prefix` payload is called `pre` here (the original name is not a legal
identifier in this development). -/
inductive Filter where
  | must (field : String) (values : List Value)
  | mustNot (field : String) (values : List Value)
  | range (field : String) (gt gte lt lte : Option Value)
  | rangeOut (field : String) (gte lte : Option Value)
  | pref (field : String) (pre : String)
  | contains (field : String) (substring : String)
  | regex (field : String) (pattern : String)
  | and (filters : List Filter)
  | or (filters : List Filter)

/-- `values_match`: numeric i64 comparison first, then f64 comparison with a
1e-9 tolerance (the float literal `1e-9` modelled as the exact rational),
with structural equality for everything else. -/
def values_match (a b : Value) : Bool :=
  match a, b with
  | .num na, .num nb =>
    match na.asI64, nb.asI64 with
    | some ia, some ib => ia == ib
    | _, _ =>
      match na.asF64, nb.asF64 with
      | some fa, some fb => |fa - fb| < 1 / 1000000000
      | _, _ => false
  | _, _ => a == b

/-- `compare_values`: numbers via f64 promotion, strings lexicographically,
cross-type yields no ordering. -/
def compare_values (a b : Value) : Option Ordering :=
  match a, b with
  | .num na, .num nb =>
    match na.asF64, nb.asF64 with
    | some fa, some fb => some (compare fa fb)
    | _, _ => none
  | .str sa, .str sb => some (compare sa sb)
  | _, _ => none

/-- `range_check`: every provided bound must hold; an unordered comparison
fails the check. -/
def range_check (val : Value) (gt gte lt lte : Option Value) : Bool :=
  let c1 := match gt with
    | some g => compare_values val g == some Ordering.gt
    | none => true
  let c2 := match gte with
    | some g =>
      match compare_values val g with
      | some Ordering.lt => false
      | none => false
      | _ => true
    | none => true
  let c3 := match lt with
    | some l => compare_values val l == some Ordering.lt
    | none => true
  let c4 := match lte with
    | some l =>
      match compare_values val l with
      | some Ordering.gt => false
      | none => false
      | _ => true
    | none => true
  c1 && c2 && c3 && c4

/-- Rust `str::trim_matches(c)`: strip every leading and trailing `c`. -/
def trimMatches (c : Char) (s : List Char) : List Char :=
  ((s.dropWhile (· == c)).reverse.dropWhile (· == c)).reverse

/-- Substring occurrence test (`str::contains(&str)`). -/
def subOccurs (pat : List Char) : List Char → Bool
  | [] => pat.isEmpty
  | c :: rest => pat.isPrefixOf (c :: rest) || subOccurs pat rest

/-- Rust `str::contains` on strings. -/
def strContainsSub (s pat : String) : Bool :=
  subOccurs pat.toList s.toList

/-- `simple_regex_match`: the regex subset — `^lit$` (equality, with
alternation), `^lit` (prefix, with alternation), `lit$` (suffix), bare
pattern (substring). -/
def simple_regex_match (s pattern : String) : Bool :=
  if pattern.startsWith "^" && pattern.endsWith "$" then
    let inner := (pattern.drop 1).dropRight 1
    if strContainsSub inner "|" then
      (inner.splitOn "|").any fun alt =>
        let alt := String.mk (trimMatches ')' (trimMatches '(' alt.toList))
        s == alt
    else s == inner
  else if pattern.startsWith "^" then
    let pre := pattern.drop 1
    if pre.startsWith "(" && pre.endsWith ")" then
      let inner := (pre.drop 1).dropRight 1
      (inner.splitOn "|").any fun alt => s.startsWith alt
    else s.startsWith pre
  else if pattern.endsWith "$" then
    s.endsWith (pattern.dropRight 1)
  else strContainsSub s pattern

/-- `Filter::matches`: evaluate the filter against a record's field map. -/
def Filter.matches (f : Filter) (fields : List (String × Value)) : Bool :=
  match f with
  | .must field values =>
    match getField fields field with
    | some fieldVal =>
      match fieldVal.asArray with
      | some a => values.any fun v => a.contains v
      | none => values.any fun v => values_match fieldVal v
    | none => false
  | .mustNot field values =>
    match getField fields field with
    | some fieldVal =>
      match fieldVal.asArray with
      | some a => !(values.any fun v => a.contains v)
      | none => !(values.any fun v => values_match fieldVal v)
    | none => true
  | .range field gt gte lt lte =>
    match getField fields field with
    | some fieldVal => range_check fieldVal gt gte lt lte
    | none => false
  | .rangeOut field gte lte =>
    match getField fields field with
    | some fieldVal =>
      let below := match gte with
        | some g => compare_values fieldVal g == some Ordering.lt
        | none => false
      let above := match lte with
        | some l => compare_values fieldVal l == some Ordering.gt
        | none => false
      below || above
    | none => false
  | .pref field pre =>
    match getField fields field with
    | some fieldVal =>
      match fieldVal.asStr with
      | some s => s.startsWith pre
      | none => false
    | none => false
  | .contains field substring =>
    match getField fields field with
    | some fieldVal =>
      match fieldVal.asStr with
      | some s => strContainsSub s substring
      | none => false
    | none => false
  | .regex field pattern =>
    match getField fields field with
    | some fieldVal =>
      match fieldVal.asStr with
      | some s => simple_regex_match s pattern
      | none => false
    | none => false
  | .and filters => filters.attach.all fun g => Filter.matches g.1 fields
  | .or filters => filters.attach.any fun g => Filter.matches g.1 fields
termination_by sizeOf f
decreasing_by
  all_goals simp_wf
  · have := List.sizeOf_lt_of_mem g.2; omega
  · have := List.sizeOf_lt_of_mem g.2; omega

/-- `Filter::from_json`: parse a filter node from a JSON value.  Malformed
nodes yield `none`. -/
def Filter.from_json (v : Value) : Option Filter :=
  match v with
  | .obj fields =>
    match getField fields "op" with
    | some (.str op) =>
      if op = "must" then do
        let field ← (← getField fields "field").asStr
        let conds ← (← getField fields "conds").asArray
        some (Filter.must field conds)
      else if op = "must_not" then do
        let field ← (← getField fields "field").asStr
        let conds ← (← getField fields "conds").asArray
        some (Filter.mustNot field conds)
      else if op = "range" then do
        let field ← (← getField fields "field").asStr
        some (Filter.range field (getField fields "gt") (getField fields "gte")
          (getField fields "lt") (getField fields "lte"))
      else if op = "range_out" then do
        let field ← (← getField fields "field").asStr
        some (Filter.rangeOut field (getField fields "gte") (getField fields "lte"))
      else if op = "prefix" then do
        let field ← (← getField fields "field").asStr
        let p ← (← getField fields "prefix").asStr
        some (Filter.pref field p)
      else if op = "contains" then do
        let field ← (← getField fields "field").asStr
        let s ← (← getField fields "substring").asStr
        some (Filter.contains field s)
      else if op = "regex" then do
        let field ← (← getField fields "field").asStr
        let p ← (← getField fields "pattern").asStr
        some (Filter.regex field p)
      else if op = "and" then
        match hw : getField fields "conds" with
        | some w =>
          match ha : w.asArray with
          | some conds =>
            some (Filter.and (conds.attach.filterMap fun c => Filter.from_json c.1))
          | none => none
        | none => none
      else if op = "or" then
        match hw : getField fields "conds" with
        | some w =>
          match ha : w.asArray with
          | some conds =>
            some (Filter.or (conds.attach.filterMap fun c => Filter.from_json c.1))
          | none => none
        | none => none
      else none
    | _ => none
  | _ => none
termination_by sizeOf v
decreasing_by
  all_goals simp_wf
  all_goals
    have h1 := List.sizeOf_lt_of_mem c.2
    have h2 : sizeOf w < 1 + sizeOf fields := by
      clear h1 ha
      induction fields with
      | nil => simp [getField, lookupA] at hw
      | cons p rest ih =>
        simp only [getField, lookupA] at hw
        split at hw
        · cases hw; cases p; simp; omega
        · have := ih hw; simp at this ⊢; omega
    have h3 : sizeOf conds < sizeOf w := by
      cases w <;> simp [Value.asArray] at ha
      subst ha; simp
    exact lt_trans (lt_trans h1 h3) h2

/-! ## Errors (`error.rs`) -/

/-- `VectorDbError`.  The `Io` and `Other` payloads (foreign error types) are
not modelled. -/
inductive VectorDbError where
  | collectionNotFound (name : String)
  | collectionAlreadyExists (name : String)
  | indexNotFound (name : String)
  | indexAlreadyExists (name : String)
  | dimensionMismatch (expected got : Nat)
  | invalidConfig (msg : String)
  | storage (msg : String)
  | serialization (msg : String)
  | projectNotFound (name : String)
  | projectAlreadyExists (name : String)
  | io
  | other
deriving DecidableEq

/-! ## Distance kernels (`distance/mod.rs`) -/

/-- `DistanceMetric`. -/
inductive Metric where
  | cosine
  | l2
  | ip
deriving DecidableEq

/-- `inner_product`: ∑ aᵢ·bᵢ. -/
def inner_product (a b : List ℚ) : ℚ :=
  (List.zipWith (· * ·) a b).sum

/-- `l2_squared`: ∑ (aᵢ−bᵢ)². -/
def l2_squared (a b : List ℚ) : ℚ :=
  (List.zipWith (fun x y => (x - y) * (x - y)) a b).sum

/-- ∑ vᵢ² (the squared L2 norm). -/
def sumSquares (v : List ℚ) : ℚ :=
  (v.map fun x => x * x).sum

/-- Model of `f32::sqrt` on the exact rationals: the exact square root when
the argument is a perfect square of a rational (the only domain the claims
exercise — they assume unit vectors), and 0 otherwise. -/
def ratSqrt (q : ℚ) : ℚ :=
  let n := Nat.sqrt q.num.toNat
  let d := Nat.sqrt q.den
  if 0 ≤ q.num ∧ n * n = q.num.toNat ∧ d * d = q.den then (n : ℚ) / (d : ℚ) else 0

/-- `cosine_similarity`: ip / (‖a‖·‖b‖), 0 if either norm is 0. -/
def cosine_similarity (a b : List ℚ) : ℚ :=
  let dot := inner_product a b
  let norm_a := ratSqrt (sumSquares a)
  let norm_b := ratSqrt (sumSquares b)
  if norm_a = 0 ∨ norm_b = 0 then 0 else dot / (norm_a * norm_b)

/-- `normalize_vector`: divide by the L2 norm when it is positive. -/
def normalize_vector (v : List ℚ) : List ℚ :=
  let norm := ratSqrt (sumSquares v)
  if 0 < norm then v.map (· / norm) else v

/-- `compute_score`: higher-is-better dispatch — L2 ↦ 1/(1+d²), IP ↦ dot,
cosine ↦ cosine similarity. -/
def compute_score (metric : Metric) (a b : List ℚ) : ℚ :=
  match metric with
  | .l2 => 1 / (1 + l2_squared a b)
  | .ip => inner_product a b
  | .cosine => cosine_similarity a b

/-! ## Flat index (`index/flat.rs`) -/

/-- `SearchResult` (`index/mod.rs`): parallel id/score lists. -/
structure SearchResult where
  ids : List Nat
  scores : List ℚ
deriving DecidableEq

/-- `FlatInner`: parallel label/vector arrays plus the label → array-index
map. -/
structure FlatInner where
  labels : List Nat
  vectors : List (List ℚ)
  label_to_idx : List (Nat × Nat)
  deleted_count : Nat
deriving DecidableEq

/-- `FlatIndex`. -/
structure FlatIndex where
  dimension : Nat
  metric : Metric
  inner : FlatInner
deriving DecidableEq

/-- `FlatIndex::new`. -/
def FlatIndex.new (dimension : Nat) (metric : Metric) : FlatIndex :=
  { dimension, metric, inner := ⟨[], [], [], 0⟩ }

/-- `FlatIndex::insert`: dimension-check, cosine-normalise, then update in
place for a known label or push a fresh slot. -/
def FlatIndex.insert (idx : FlatIndex) (label : Nat) (vector : List ℚ) :
    FlatIndex × Option VectorDbError :=
  if vector.length ≠ idx.dimension then
    (idx, some (.dimensionMismatch idx.dimension vector.length))
  else
    let v := if idx.metric = .cosine then normalize_vector vector else vector
    match lookupA idx.inner.label_to_idx label with
    | some i =>
      ({ idx with inner := { idx.inner with vectors := idx.inner.vectors.set i v } }, none)
    | none =>
      let i := idx.inner.labels.length
      ({ idx with inner :=
        { idx.inner with
          labels := idx.inner.labels ++ [label]
          vectors := idx.inner.vectors ++ [v]
          label_to_idx := insertA label i idx.inner.label_to_idx } }, none)

/-- `FlatIndex::search`: dimension-check, cosine-normalise the query and fall
back to IP, score every stored vector, stable-sort descending, truncate to
`top_k`. -/
def FlatIndex.search (idx : FlatIndex) (query : List ℚ) (top_k : Nat) :
    Except VectorDbError SearchResult :=
  if query.length ≠ idx.dimension then
    .error (.dimensionMismatch idx.dimension query.length)
  else if idx.inner.labels.isEmpty || top_k == 0 then
    .ok ⟨[], []⟩
  else
    let query_vec := if idx.metric = .cosine then normalize_vector query else query
    let effective_metric := if idx.metric = .cosine then Metric.ip else idx.metric
    let scored := (idx.inner.labels.zip idx.inner.vectors).map fun lv =>
      (lv.1, compute_score effective_metric query_vec lv.2)
    let sorted := scored.mergeSort fun a b => decide (b.2 ≤ a.2)
    let top := sorted.take top_k
    .ok ⟨top.map Prod.fst, top.map Prod.snd⟩

/-! ### Binary load path of the flat index

The file is a byte list; bytes are `Nat` below 256.  `f32` payloads are
decoded to their exact rational values by `f32DecodeBits` (the exponent-255
patterns, infinities and NaNs, fall outside the exact model and are mapped
to 0; no claim exercises them). -/

/-- Little-endian decoding of `n` bytes to a `Nat`. -/
def natFromLeBytes (bs : List Nat) : Nat :=
  bs.foldr (fun b acc => b + 256 * acc) 0

/-- `read_exact`: take exactly `n` bytes or fail. -/
def readBytes (n : Nat) (s : List Nat) : Option (List Nat × List Nat) :=
  if s.length < n then none else some (s.take n, s.drop n)

/-- Exact value of an IEEE-754 binary32 bit pattern. -/
def f32DecodeBits (bits : Nat) : ℚ :=
  let sign : Nat := bits / 2 ^ 31
  let ex : Nat := (bits / 2 ^ 23) % 256
  let frac : Nat := bits % 2 ^ 23
  let mag : ℚ :=
    if ex = 0 then (frac : ℚ) / 2 ^ 149
    else if ex = 255 then 0
    else ((2 ^ 23 + frac : ℕ) : ℚ) * (2 : ℚ) ^ ex / 2 ^ 150
  if sign = 1 then -mag else mag

/-- Split a byte list into 4-byte words and decode each as a binary32. -/
def decodeVec : List Nat → List ℚ
  | b0 :: b1 :: b2 :: b3 :: rest => f32DecodeBits (natFromLeBytes [b0, b1, b2, b3]) :: decodeVec rest
  | _ => []

/-- The record-reading loop of `FlatIndex::load`: `count` records of
`label:u64 | vector:f32·dim` each. -/
def parseFlatRecords (dim : Nat) : Nat → List Nat → Option (List (Nat × List ℚ) × List Nat)
  | 0, s => some ([], s)
  | n + 1, s => do
    let (lb, s1) ← readBytes 8 s
    let (vb, s2) ← readBytes (4 * dim) s1
    let (rest, s3) ← parseFlatRecords dim n s2
    some ((natFromLeBytes lb, decodeVec vb) :: rest, s3)

/-- The parse performed by `FlatIndex::load`: header `dim:u32 | count:u64`,
then the records.  Trailing bytes (including the metric byte, which `load`
never reads) are ignored. -/
def flatParseFile (file : List Nat) : Option (Nat × List (Nat × List ℚ)) := do
  let (dimB, s1) ← readBytes 4 file
  let (cntB, s2) ← readBytes 8 s1
  let (recs, _) ← parseFlatRecords (natFromLeBytes dimB) (natFromLeBytes cntB) s2
  some (natFromLeBytes dimB, recs)

/-- Rebuild of `label_to_idx` while scanning (`load`'s loop inserts
`label ↦ i` for each position `i` in file order). -/
def rebuildLabelToIdx (labels : List Nat) : List (Nat × Nat) :=
  labels.enum.foldl (fun m p => insertA p.2 p.1 m) []

/-- `FlatIndex::load`: clear the arrays, read the header and records,
rebuild the label map, and overwrite the index's dimension with the file's
`dim` value.  The configured dimension is never compared with the file's;
the metric byte is never read; `deleted_count` is left untouched. -/
def FlatIndex.load (idx : FlatIndex) (file : List Nat) :
    Except VectorDbError FlatIndex :=
  match flatParseFile file with
  | none => .error .io
  | some (dim, recs) =>
    .ok { idx with
      dimension := dim
      inner :=
        { labels := recs.map Prod.fst
          vectors := recs.map Prod.snd
          label_to_idx := rebuildLabelToIdx (recs.map Prod.fst)
          deleted_count := idx.inner.deleted_count } }

/-! ## HNSW index state (`index/hnsw.rs`)

Only the parts the claims are about are embedded: the inner state, `delete`,
`needs_rebuild`, and the `save`/`load` round trip.  The derived constant
`ml = 1/ln M` (used exclusively to draw stochastic levels on insert) is
irrational and is not part of the state model. -/

/-- `HnswInner`. -/
structure HnswInner where
  vectors : List (List ℚ)
  label_to_id : List (Nat × Nat)
  id_to_label : List Nat
  layers : List (List (List Nat))
  node_levels : List Nat
  entry_point : Option Nat
  max_level : Nat
  deleted : Finset Nat

/-- `HnswIndex`. -/
structure HnswIndex where
  dimension : Nat
  metric : Metric
  m : Nat
  ef_construction : Nat
  ef_search : Nat
  inner : HnswInner

/-- `HnswIndex::delete`: soft delete — insert the internal id into the
deleted set and drop the label from the label map; the graph is untouched.
Unknown labels are a no-op. -/
def HnswIndex.delete (idx : HnswIndex) (label : Nat) : HnswIndex :=
  match lookupA idx.inner.label_to_id label with
  | some id =>
    { idx with inner :=
      { idx.inner with
        deleted := insert id idx.inner.deleted
        label_to_id := eraseA idx.inner.label_to_id label } }
  | none => idx

/-- `HnswIndex::needs_rebuild`: false on an empty vector arena, otherwise
`|deleted| · 2 > |vectors|`. -/
def HnswIndex.needs_rebuild (idx : HnswIndex) : Bool :=
  let total := idx.inner.vectors.length
  if total = 0 then false else decide (idx.inner.deleted.card * 2 > total)

/-- `HnswSerData`: the persisted blob — everything except the deleted set. -/
structure HnswSerData where
  dimension : Nat
  m : Nat
  ef_construction : Nat
  ef_search : Nat
  metric : Metric
  vectors : List (List ℚ)
  id_to_label : List Nat
  node_levels : List Nat
  layers : List (List (List Nat))
  entry_point : Option Nat
  max_level : Nat

/-- `HnswIndex::save`: serialize the whole state minus the deleted set. -/
def HnswIndex.save (idx : HnswIndex) : HnswSerData :=
  { dimension := idx.dimension
    m := idx.m
    ef_construction := idx.ef_construction
    ef_search := idx.ef_search
    metric := idx.metric
    vectors := idx.inner.vectors
    id_to_label := idx.inner.id_to_label
    node_levels := idx.inner.node_levels
    layers := idx.inner.layers
    entry_point := idx.inner.entry_point
    max_level := idx.inner.max_level }

/-- The `label_to_id` rebuild in `HnswIndex::load`: insert `label ↦ id` for
every `(id, label)` of `id_to_label.iter().enumerate()`. -/
def rebuildLabelToId (id_to_label : List Nat) : List (Nat × Nat) :=
  id_to_label.enum.foldl (fun m p => insertA p.2 p.1 m) []

/-- `HnswIndex::load`: restore every serialized field, clear the deleted
set, and rebuild `label_to_id` from `id_to_label`. -/
def HnswIndex.load (idx : HnswIndex) (data : HnswSerData) : HnswIndex :=
  { idx with
    dimension := data.dimension
    m := data.m
    ef_construction := data.ef_construction
    ef_search := data.ef_search
    metric := data.metric
    inner :=
      { vectors := data.vectors
        id_to_label := data.id_to_label
        node_levels := data.node_levels
        layers := data.layers
        entry_point := data.entry_point
        max_level := data.max_level
        label_to_id := rebuildLabelToId data.id_to_label
        deleted := ∅ } }

/-! ## Collection layer (`collection/mod.rs`)

The collection stores its indexes as trait objects (`Box<dyn VectorIndex>`);
correspondingly the embedding is parametrised by an index state type `σ`
together with the trait operations the collection invokes (`IndexOps`).
Collection-level theorems hold for *every* implementation of the contract,
exactly as the Rust code is oblivious to which index type sits behind the
box.  (The `Result` of `index.insert`/`index.delete` is discarded by every
collection call site — `let _ = ...` — so those operations are modelled as
state transformers.) -/

/-- `FieldType`. -/
inductive FieldType where
  | int64
  | float32
  | string
  | bool
  | vector
  | listString
  | listInt64
  | listFloat32
  | path
  | dateTime
  | geoPoint
  | sparseVector
deriving DecidableEq

/-- `FieldDef`. -/
structure FieldDef where
  name : String
  field_type : FieldType
  is_primary_key : Bool
  dim : Option Nat
deriving DecidableEq

/-- `CollectionConfig`. -/
structure CollectionConfig where
  name : String
  fields : List FieldDef
  description : String
deriving DecidableEq

/-- `CollectionConfig::primary_key`: name of the first primary-key field. -/
def CollectionConfig.primary_key (cfg : CollectionConfig) : Option String :=
  (cfg.fields.find? fun f => f.is_primary_key).map (·.name)

/-- `CollectionConfig::vector_field`: the first vector-typed field. -/
def CollectionConfig.vector_field (cfg : CollectionConfig) : Option FieldDef :=
  cfg.fields.find? fun f => f.field_type == FieldType.vector

/-- `CollectionConfig::dimension`: the vector field's `dim`, defaulting
to 0. -/
def CollectionConfig.dimension (cfg : CollectionConfig) : Nat :=
  ((cfg.vector_field).bind (·.dim)).getD 0

/-- `value_to_u64`: integer identity (with `i as u64` wrap-around for
negatives), string hash, and 0 for every other value.  The standard
library's `DefaultHasher` is external to the repository and enters as the
parameter `hash`. -/
def value_to_u64 (hash : String → Nat) (v : Value) : Nat :=
  match v with
  | .num n =>
    match n.asU64 with
    | some u => u
    | none =>
      match n.asI64 with
      | some i => (i % (2 ^ 64 : Int)).toNat
      | none => 0
  | .str s => hash s
  | _ => 0

/-- `value_to_f32_vec`: the numeric elements of an array value; anything
else is the empty vector. -/
def value_to_f32_vec (v : Value) : List ℚ :=
  match v with
  | .arr xs => xs.filterMap Value.asF64
  | _ => []

/-- Internal `Record`. -/
structure Record where
  label : Nat
  vector : List ℚ
  fields : List (String × Value)

/-- The operations of the `VectorIndex` trait that the collection layer
invokes on its boxed indexes.  `save` produces the bytes the index writes
under its directory. -/
structure IndexOps (σ : Type) where
  insert : σ → Nat → List ℚ → σ
  delete : σ → Nat → σ
  search : σ → List ℚ → Nat → Except VectorDbError SearchResult
  save : σ → List Nat

/-- `Collection` state: records keyed by label, named indexes, and the
auto-increment counter (initially 1). -/
structure CollectionState (σ : Type) where
  config : CollectionConfig
  records : List (Nat × Record)
  indexes : List (String × σ)
  next_auto_id : Nat

/-- `Collection::new`. -/
def CollectionState.new (σ : Type) (config : CollectionConfig) : CollectionState σ :=
  { config, records := [], indexes := [], next_auto_id := 1 }

/-- `Collection::create_index`: reject duplicate names, then replay every
existing record with a non-empty vector into the freshly built index.
(The flat/HNSW dispatch on `cfg.index_type` happens at the call boundary;
here the freshly constructed empty index arrives as `empty`.) -/
def CollectionState.create_index {σ : Type} (ops : IndexOps σ) (c : CollectionState σ)
    (name : String) (empty : σ) : Except VectorDbError (CollectionState σ) :=
  if (lookupA c.indexes name).isSome then
    .error (.indexAlreadyExists name)
  else
    let filled := c.records.foldl
      (fun s p => if p.2.vector.isEmpty then s else ops.insert s p.2.label p.2.vector) empty
    .ok { c with indexes := insertA name filled c.indexes }

/-- The vector extracted from an input record by `upsert_data`: the value of
the configured vector field, or empty. -/
def extractVec (cfg : CollectionConfig) (data : List (String × Value)) : List ℚ :=
  match cfg.vector_field with
  | some vf =>
    match getField data vf.name with
    | some v => value_to_f32_vec v
    | none => []
  | none => []

/-- One iteration of the `upsert_data` loop.  Returns the updated state and
either the id recorded for the caller or the error; note the auto-id counter
is bumped *before* the dimension check, so the bump survives a failing
record. -/
def upsertOne {σ : Type} (ops : IndexOps σ) (hash : String → Nat)
    (c : CollectionState σ) (data : List (String × Value)) :
    CollectionState σ × Except VectorDbError Value :=
  let pk_name := c.config.primary_key
  let vk_name := (c.config.vector_field).map (·.name)
  let dim := c.config.dimension
  let vector := extractVec c.config data
  let labelState : Nat × CollectionState σ :=
    match pk_name with
    | some pk =>
      match getField data pk with
      | some pk_val => (value_to_u64 hash pk_val, c)
      | none => (c.next_auto_id, { c with next_auto_id := c.next_auto_id + 1 })
    | none => (c.next_auto_id, { c with next_auto_id := c.next_auto_id + 1 })
  let label := labelState.1
  let c1 := labelState.2
  if !vector.isEmpty && vector.length != dim then
    (c1, .error (.dimensionMismatch dim vector.length))
  else
    let fields :=
      match vk_name with
      | some vk => eraseA data vk
      | none => data
    let c2 :=
      if !vector.isEmpty then
        { c1 with indexes := c1.indexes.map fun p => (p.1, ops.insert p.2 label vector) }
      else c1
    let id_val :=
      match pk_name with
      | some pk => (getField data pk).getD (Value.num (.intVal label))
      | none => Value.num (.intVal label)
    ({ c2 with records := insertA label ⟨label, vector, fields⟩ c2.records }, .ok id_val)

/-- `Collection::upsert_data`: apply records in input order; the first error
aborts the batch but keeps every already-applied record (and any auto-id
bump performed for the failing record). -/
def upsert_data {σ : Type} (ops : IndexOps σ) (hash : String → Nat)
    (c : CollectionState σ) (data_list : List (List (String × Value))) :
    CollectionState σ × Except VectorDbError (List Value) :=
  match data_list with
  | [] => (c, .ok [])
  | data :: rest =>
    match upsertOne ops hash c data with
    | (c', .error e) => (c', .error e)
    | (c', .ok id) =>
      match upsert_data ops hash c' rest with
      | (c'', .error e) => (c'', .error e)
      | (c'', .ok ids) => (c'', .ok (id :: ids))

/-- `Collection::fetch_data`: per primary key, convert to a label, look the
record up, and re-insert the vector under the vector field's name. -/
def fetch_data {σ : Type} (hash : String → Nat) (c : CollectionState σ)
    (primary_keys : List Value) : List (Option (List (String × Value))) :=
  primary_keys.map fun pk =>
    (lookupA c.records (value_to_u64 hash pk)).map fun r =>
      match c.config.vector_field with
      | some vf =>
        insertA vf.name (Value.arr (r.vector.map fun q => Value.num (.floatVal q))) r.fields
      | none => r.fields

/-- `Collection::delete_data`: remove each key's record; on a hit, call
`delete` on every named index. -/
def delete_data {σ : Type} (ops : IndexOps σ) (hash : String → Nat)
    (c : CollectionState σ) (primary_keys : List Value) : CollectionState σ :=
  primary_keys.foldl
    (fun c pk =>
      let label := value_to_u64 hash pk
      if (lookupA c.records label).isSome then
        { c with
          records := eraseA c.records label
          indexes := c.indexes.map fun p => (p.1, ops.delete p.2 label) }
      else c)
    c

/-- `Collection::count`. -/
def CollectionState.count {σ : Type} (c : CollectionState σ) : Nat :=
  c.records.length

/-- `Collection::label_to_pk`: a found record's primary-key field value,
falling back to the numeric label. -/
def label_to_pk {σ : Type} (c : CollectionState σ) (label : Nat) : Value :=
  match c.config.primary_key with
  | some pk_name =>
    match lookupA c.records label with
    | some record => (getField record.fields pk_name).getD (Value.num (.intVal label))
    | none => Value.num (.intVal label)
  | none => Value.num (.intVal label)

/-- `SearchItem`. -/
structure SearchItem where
  id : Value
  score : ℚ
  fields : List (String × Value)

/-- `CollectionSearchResult`. -/
structure CollectionSearchResult where
  data : List SearchItem

/-- The with-filter collection loop of `search_by_vector`: keep candidates
whose record exists and passes the filter, skipping the first `offset`
survivors and stopping once `limit` items are collected. -/
def searchFilterLoop {σ : Type} (c : CollectionState σ) (filter : Filter)
    (limit offset : Nat) : Nat → List SearchItem → List (Nat × ℚ) → List SearchItem
  | _, acc, [] => acc.reverse
  | skipped, acc, (id, score) :: rest =>
    match lookupA c.records id with
    | some record =>
      if filter.matches record.fields then
        if skipped < offset then searchFilterLoop c filter limit offset (skipped + 1) acc rest
        else if limit ≤ acc.length then acc.reverse
        else searchFilterLoop c filter limit offset skipped
          (⟨label_to_pk c id, score, record.fields⟩ :: acc) rest
      else searchFilterLoop c filter limit offset skipped acc rest
    | none => searchFilterLoop c filter limit offset skipped acc rest

/-- `Collection::search_by_vector`. -/
def search_by_vector {σ : Type} (ops : IndexOps σ) (c : CollectionState σ)
    (index_name : String) (dense_vector : List ℚ) (limit offset : Nat)
    (filters : Option Value) : Except VectorDbError CollectionSearchResult :=
  match lookupA c.indexes index_name with
  | none => .error (.indexNotFound index_name)
  | some idx =>
    match filters.bind Filter.from_json with
    | none =>
      match ops.search idx dense_vector (limit + offset) with
      | .error e => .error e
      | .ok idx_result =>
        let items := (((idx_result.ids.zip idx_result.scores).drop offset).take limit).map
          fun p => SearchItem.mk (label_to_pk c p.1) p.2
            (((lookupA c.records p.1).map (·.fields)).getD [])
        .ok ⟨items⟩
    | some filter =>
      match ops.search idx dense_vector ((limit + offset) * 10) with
      | .error e => .error e
      | .ok idx_result =>
        .ok ⟨searchFilterLoop c filter limit offset 0 [] (idx_result.ids.zip idx_result.scores)⟩

/-! ### Collection persistence (`persist` / `try_recover`)

Persistence is modelled at the data level: what `persist` writes into the
collection directory, and what `try_recover` reads back.  (The individual
file-system operations behind those writes are the subject of the
atomic-write model further below.) -/

/-- The contents of a collection directory after `persist`: the config blob,
the records blob, and one saved file per named index. -/
structure PersistedDir where
  config_blob : CollectionConfig
  records_blob : List Record
  index_blobs : List (String × List Nat)

/-- `Collection::persist`: write the config, the records (the map's values),
and each index's save file. -/
def CollectionState.persist {σ : Type} (ops : IndexOps σ) (c : CollectionState σ) :
    PersistedDir :=
  { config_blob := c.config
    records_blob := c.records.map (·.2)
    index_blobs := c.indexes.map fun p => (p.1, ops.save p.2) }

/-- `Collection::try_recover`: if `records.json` exists, parse it, populate
the record map, and restore the auto-id counter to `max(label) + 1`.
Nothing else in the directory — neither the config blob nor any index
file — is read. -/
def CollectionState.try_recover {σ : Type} (c : CollectionState σ)
    (records_file : Option (List Record)) : CollectionState σ :=
  match records_file with
  | none => c
  | some records_vec =>
    { c with
      records := records_vec.foldl (fun m r => insertA r.label r m) c.records
      next_auto_id := (records_vec.foldl (fun mx r => max mx r.label) 0) + 1 }

/-- `Collection::with_path`: a fresh collection for the caller-supplied
config, followed by `try_recover` on the directory's records blob. -/
def CollectionState.with_path (σ : Type) (config : CollectionConfig)
    (dir : Option PersistedDir) : CollectionState σ :=
  CollectionState.try_recover (CollectionState.new σ config)
    (dir.map (·.records_blob))

/-! ## File-system operation traces (`store/file_store.rs`, atomic writes)

For the atomic-write claim the individual file-system operations are made
explicit.  A file system is a map from path to contents; `File::create`
(and the first half of `std::fs::write`) truncates the file to empty,
`write_all` fills in the buffer, and `rename` moves source over destination
in one step.  A reader may observe the state after any prefix of a trace. -/

/-- A file-system operation. -/
inductive FsOp where
  | createFile (p : String)
  | writeAll (p : String) (data : List Nat)
  | renameFile (src dst : String)

/-- File-system state: path to contents. -/
def FsState : Type := String → Option (List Nat)

/-- Apply one operation. -/
def applyOp (fs : FsState) : FsOp → FsState
  | .createFile p => fun q => if q = p then some [] else fs q
  | .writeAll p data => fun q => if q = p then some data else fs q
  | .renameFile src dst => fun q =>
    if q = dst then fs src else if q = src then none else fs q

/-- Run a trace. -/
def runOps (fs : FsState) (ops : List FsOp) : FsState :=
  ops.foldl applyOp fs

/-- The state a reader observes after the first `n` operations. -/
def obsAfter (fs : FsState) (ops : List FsOp) (n : Nat) : FsState :=
  runOps fs (ops.take n)

/-- Split off the final path component (after the last `/`). -/
def lastComponentSplit (cs : List Char) : List Char × List Char :=
  let name := (cs.reverse.takeWhile (· ≠ '/')).reverse
  (cs.take (cs.length - name.length), name)

/-- `Path::file_stem` of a final component: the part before the last dot,
except that a lone leading dot marks no extension. -/
def fileStem (name : List Char) : List Char :=
  let afterDot := name.reverse.takeWhile (· ≠ '.')
  if afterDot.length = name.length then name
  else
    let stem := name.take (name.length - afterDot.length - 1)
    if stem.isEmpty then name else stem

/-- `path.with_extension("tmp")`: replace the final component's extension
(or append one). -/
def withExtTmp (p : String) : String :=
  let dn := lastComponentSplit p.toList
  String.mk (dn.1 ++ fileStem dn.2 ++ ('.' :: ['t', 'm', 'p']))

/-- The write trace of `FileStore::put` (success path): create the sibling
`.tmp` file, fill it, and rename it over the destination. -/
def FileStore.putOps (key : String) (value : List Nat) : List FsOp :=
  [.createFile (withExtTmp key), .writeAll (withExtTmp key) value,
   .renameFile (withExtTmp key) key]

/-- The write trace of `Collection::persist`: `std::fs::write` on the config
and records paths (truncate, then fill), followed by each index's save file
(`File::create`, then the writes).  No temp file and no rename occur. -/
def Collection.persistOps (dir : String) (configBytes recordsBytes : List Nat)
    (indexFiles : List (String × List Nat)) : List FsOp :=
  [.createFile (dir ++ "/collection_config.json"),
   .writeAll (dir ++ "/collection_config.json") configBytes,
   .createFile (dir ++ "/records.json"),
   .writeAll (dir ++ "/records.json") recordsBytes] ++
  indexFiles.flatMap fun pf => [.createFile pf.1, .writeAll pf.1 pf.2]

/-! ## Project group (`project/mod.rs`)

The claims about the project group concern only which project names are
present, so its state is modelled as the list of project names (insertion
order; `HashMap` keys are unique). -/

/-- The project-group operations that modify the project map. -/
inductive PGOp where
  | createProject (name : String)
  | deleteProject (name : String)
deriving DecidableEq

/-- `ProjectGroup::new`: the volatile constructor inserts `default`. -/
def ProjectGroup.new : List String := ["default"]

/-- `ProjectGroup::with_path`: load every scanned project subdirectory, then
insert `default` if it is missing. -/
def ProjectGroup.with_path (scanned : List String) : List String :=
  let loaded := scanned.foldl (fun m n => if n ∈ m then m else m ++ [n]) []
  if "default" ∈ loaded then loaded else loaded ++ ["default"]

/-- One project-group operation: `create_project` rejects names already
present with `ProjectAlreadyExists`; `delete_project` removes
unconditionally (including `default`). -/
def pgStep (s : List String) : PGOp → List String × Option VectorDbError
  | .createProject n =>
    if n ∈ s then (s, some (.projectAlreadyExists n)) else (s ++ [n], none)
  | .deleteProject n => (s.erase n, none)

/-- Run a sequence of project-group operations (errors leave the state
unchanged, as in the source). -/
def pgRun (s : List String) (ops : List PGOp) : List String :=
  ops.foldl (fun s op => (pgStep s op).1) s

/-! ## Reference definitions and concrete instances

`referenceScore`/`referenceTopK` are stated from the specification's words
(P2: "the top-K by cosine/IP/L2 computed by an independent reference
implementation"), to be compared against `FlatIndex.search`.  The remaining
definitions are concrete inputs used by witnesses and counterexamples:
`demoIndexOps` is a simple conforming implementation of the `VectorIndex`
contract (collection-level theorems quantify over every implementation, so
any instance is a legitimate input), and `demoHash` stands in for the
standard library's `DefaultHasher` (no claim depends on actual hash
values). -/

/-- Reference per-vector score, following the spec: cosine similarity for
cosine, the dot product for IP, `1/(1+d²)` for L2. -/
def referenceScore (metric : Metric) (q v : List ℚ) : ℚ :=
  match metric with
  | .cosine => cosine_similarity q v
  | .ip => inner_product q v
  | .l2 => 1 / (1 + l2_squared q v)

/-- Reference brute-force top-K, following the spec: score every stored
vector, sort by descending score (stable), take `k`. -/
def referenceTopK (metric : Metric) (labels : List Nat) (vectors : List (List ℚ))
    (query : List ℚ) (k : Nat) : List (Nat × ℚ) :=
  (((labels.zip vectors).map fun lv => (lv.1, referenceScore metric query lv.2)).mergeSort
    fun a b => decide (b.2 ≤ a.2)).take k

/-- Concrete HNSW state used by the C6 witness. -/
def hnswC6Input : HnswIndex :=
  { dimension := 2, metric := .ip, m := 16, ef_construction := 200, ef_search := 50,
    inner :=
      { vectors := [[1, 0], [0, 1]]
        label_to_id := [(7, 0), (9, 1)]
        id_to_label := [7, 9]
        layers := [[[1], [0]]]
        node_levels := [0, 0]
        entry_point := some 0
        max_level := 0
        deleted := ∅ } }

/-- A simple conforming index implementation (state: label ↦ vector),
used as a concrete instance in collection-level witnesses. -/
def demoIndexOps : IndexOps (List (Nat × List ℚ)) :=
  { insert := fun s label v => insertA label v s
    delete := fun s label => eraseA s label
    search := fun s _ k =>
      .ok ⟨(s.take k).map Prod.fst, (s.take k).map fun _ => 0⟩
    save := fun _ => [] }

/-- Stand-in for `DefaultHasher` in concrete instances. -/
def demoHash : String → Nat := fun s => s.length

/-- A collection schema with an int64 primary key `id` and a 1-dimensional
vector field `vec`. -/
def demoConfig : CollectionConfig :=
  { name := "c"
    fields := [⟨"id", .int64, true, none⟩, ⟨"vec", .vector, false, some 1⟩]
    description := "" }

/-- A collection built through the API: create index `idx`, then upsert one
record `{id: 1, vec: [1.0]}`. -/
def demoCollection : CollectionState (List (Nat × List ℚ)) :=
  (upsert_data demoIndexOps demoHash
    ((CollectionState.create_index demoIndexOps
        (CollectionState.new (List (Nat × List ℚ)) demoConfig) "idx" []).toOption.getD
      (CollectionState.new (List (Nat × List ℚ)) demoConfig))
    [[("id", Value.num (.intVal 1)), ("vec", Value.arr [Value.num (.floatVal 1)])]]).1

/-- A valid batch prefix: one record `{id: 1, vec: [1.0]}`. -/
def c5Pre : List (List (String × Value)) :=
  [[("id", Value.num (.intVal 1)), ("vec", Value.arr [Value.num (.floatVal 1)])]]

/-- A record whose vector has length 2 against a dimension-1 schema. -/
def c5Bad : List (String × Value) :=
  [("id", Value.num (.intVal 2)),
   ("vec", Value.arr [Value.num (.floatVal 1), Value.num (.floatVal 2)])]

/-- A file system whose collection directory holds a previous complete
config file `[49]`. -/
def c2Fs0 : FsState :=
  fun p => if p = "c/collection_config.json" then some [49] else none

/-! ## Association-list lemmas -/

theorem lookupA_cons {α β : Type} [DecidableEq α] (k0 : α) (v0 : β) (rest : List (α × β))
    (k : α) : lookupA ((k0, v0) :: rest) k = if k0 = k then some v0 else lookupA rest k := rfl

theorem eraseA_cons {α β : Type} [DecidableEq α] (k0 : α) (v0 : β) (rest : List (α × β))
    (k : α) : eraseA ((k0, v0) :: rest) k
      = if k0 = k then eraseA rest k else (k0, v0) :: eraseA rest k := by
  by_cases h : k0 = k <;> simp [eraseA, h]

theorem lookupA_insertA_self {α β : Type} [DecidableEq α] (l : List (α × β)) (k : α) (v : β) :
    lookupA (insertA k v l) k = some v := by
  simp [insertA, lookupA]

theorem lookupA_eraseA_ne {α β : Type} [DecidableEq α] (l : List (α × β)) (k k' : α)
    (h : k' ≠ k) : lookupA (eraseA l k) k' = lookupA l k' := by
  induction l with
  | nil => rfl
  | cons p rest ih =>
    cases p with
    | mk k0 v0 =>
      rw [eraseA_cons]
      by_cases h0 : k0 = k
      · rw [if_pos h0, ih, lookupA_cons,
          if_neg (by rw [h0]; exact fun hc => h hc.symm)]
      · rw [if_neg h0, lookupA_cons, lookupA_cons, ih]

theorem lookupA_eraseA_self {α β : Type} [DecidableEq α] (l : List (α × β)) (k : α) :
    lookupA (eraseA l k) k = none := by
  induction l with
  | nil => rfl
  | cons p rest ih =>
    cases p with
    | mk k0 v0 =>
      rw [eraseA_cons]
      by_cases h0 : k0 = k
      · rw [if_pos h0]; exact ih
      · rw [if_neg h0, lookupA_cons, if_neg h0]; exact ih

theorem lookupA_insertA_ne {α β : Type} [DecidableEq α] (l : List (α × β)) (k k' : α) (v : β)
    (h : k' ≠ k) : lookupA (insertA k v l) k' = lookupA l k' := by
  simp only [insertA, lookupA]
  rw [if_neg (fun hc => h hc.symm)]
  exact lookupA_eraseA_ne l k k' h

theorem lookupA_insertA_isSome {α β : Type} [DecidableEq α] (l : List (α × β)) (k k' : α)
    (v : β) (h : (lookupA l k').isSome) : (lookupA (insertA k v l) k').isSome := by
  by_cases hk : k' = k
  · subst hk; simp [lookupA_insertA_self]
  · rwa [lookupA_insertA_ne l k k' v hk]

/-! ## C4 — filter composability and `must_not` semantics -/

/-- C4: for every record field map and sub-filter list, `and` matches iff
every sub-filter matches (the empty `and` matches everything), `or` matches
iff some sub-filter matches (the empty `or` matches nothing), `must_not` on
a present field is the negation of `must` with the same field and conds, and
`must_not` is true when the field is absent. -/
theorem filter_and_or_mustNot_semantics
    (r : List (String × Value)) (fs : List Filter)
    (field : String) (conds : List Value) :
    ((Filter.and fs).matches r = true ↔ ∀ f ∈ fs, f.matches r = true) ∧
    ((Filter.or fs).matches r = true ↔ ∃ f ∈ fs, f.matches r = true) ∧
    ((Filter.and []).matches r = true) ∧
    ((Filter.or []).matches r = false) ∧
    ((getField r field).isSome →
      (Filter.mustNot field conds).matches r
        = !((Filter.must field conds).matches r)) ∧
    (getField r field = none → (Filter.mustNot field conds).matches r = true) := by
  refine ⟨?_, ?_, ?_, ?_, ?_, ?_⟩
  · simp [Filter.matches, List.all_eq_true, List.mem_attach]
  · constructor
    · intro h
      simp only [Filter.matches, List.any_eq_true] at h
      obtain ⟨g, _, hg⟩ := h
      exact ⟨g.1, g.2, hg⟩
    · intro ⟨f, hf, hm⟩
      simp only [Filter.matches, List.any_eq_true]
      exact ⟨⟨f, hf⟩, List.mem_attach _ _, hm⟩
  · simp [Filter.matches]
  · simp [Filter.matches]
  · intro h
    obtain ⟨v, hv⟩ := Option.isSome_iff_exists.mp h
    simp only [Filter.matches, hv]
    cases v <;> simp [Value.asArray]
  · intro h
    simp [Filter.matches, h]

/-- Witness for C4 at concrete inputs. -/
theorem filter_and_or_mustNot_semantics_witness :
    ((Filter.mustNot "cat" [Value.str "A"]).matches [("cat", Value.str "A")]
      = !((Filter.must "cat" [Value.str "A"]).matches [("cat", Value.str "A")])) ∧
    ((Filter.mustNot "cat" [Value.str "A"]).matches [("other", Value.null)] = true) :=
  ⟨(filter_and_or_mustNot_semantics [("cat", Value.str "A")] [] "cat"
      [Value.str "A"]).2.2.2.2.1 (by rfl),
   (filter_and_or_mustNot_semantics [("other", Value.null)] [] "cat"
      [Value.str "A"]).2.2.2.2.2 (by rfl)⟩

/-! ## C6 — HNSW soft delete and the rebuild hint -/

/-- C6: deleting a label that is in the label map only inserts its internal
id into the deleted set and removes the label from the map; vectors, every
layer's adjacency, node levels, entry point and max level are untouched.
`needs_rebuild` is `|deleted| · 2 > |vectors|` (the deleted set only ever
holds stored internal ids, which is hypothesis `h2`). -/
theorem hnsw_delete_soft_needs_rebuild
    (idx : HnswIndex) (label id : Nat)
    (h1 : lookupA idx.inner.label_to_id label = some id)
    (h2 : ∀ i ∈ idx.inner.deleted, i < idx.inner.vectors.length) :
    ((idx.delete label).inner.deleted = insert id idx.inner.deleted) ∧
    ((idx.delete label).inner.label_to_id = eraseA idx.inner.label_to_id label) ∧
    (lookupA (idx.delete label).inner.label_to_id label = none) ∧
    ((idx.delete label).inner.vectors = idx.inner.vectors) ∧
    ((idx.delete label).inner.layers = idx.inner.layers) ∧
    ((idx.delete label).inner.node_levels = idx.inner.node_levels) ∧
    ((idx.delete label).inner.entry_point = idx.inner.entry_point) ∧
    ((idx.delete label).inner.max_level = idx.inner.max_level) ∧
    ((idx.delete label).inner.id_to_label = idx.inner.id_to_label) ∧
    (idx.needs_rebuild = true ↔ idx.inner.deleted.card * 2 > idx.inner.vectors.length) := by
  refine ⟨?_, ?_, ?_, ?_, ?_, ?_, ?_, ?_, ?_, ?_⟩
  · simp [HnswIndex.delete, h1]
  · simp [HnswIndex.delete, h1]
  · simp [HnswIndex.delete, h1, lookupA_eraseA_self]
  · simp [HnswIndex.delete, h1]
  · simp [HnswIndex.delete, h1]
  · simp [HnswIndex.delete, h1]
  · simp [HnswIndex.delete, h1]
  · simp [HnswIndex.delete, h1]
  · simp [HnswIndex.delete, h1]
  · unfold HnswIndex.needs_rebuild
    by_cases h0 : idx.inner.vectors.length = 0
    · have hempty : idx.inner.deleted = ∅ := by
        apply Finset.eq_empty_iff_forall_not_mem.mpr
        intro i hi
        have := h2 i hi
        omega
      simp [h0, hempty]
    · simp [h0]

/-- Witness for C6 at a concrete two-node index. -/
theorem hnsw_delete_soft_needs_rebuild_witness :
    ((hnswC6Input.delete 7).inner.deleted = insert 0 hnswC6Input.inner.deleted) ∧
    ((hnswC6Input.delete 7).inner.vectors = hnswC6Input.inner.vectors) ∧
    (lookupA (hnswC6Input.delete 7).inner.label_to_id 7 = none) ∧
    (hnswC6Input.needs_rebuild = true
      ↔ hnswC6Input.inner.deleted.card * 2 > hnswC6Input.inner.vectors.length) := by
  have h := hnsw_delete_soft_needs_rebuild hnswC6Input 7 0 (by rfl) (by decide)
  exact ⟨h.1, h.2.2.2.1, h.2.2.1, h.2.2.2.2.2.2.2.2.2⟩

/-! ## C7 — HNSW persistence drops the deleted set -/

theorem foldl_insertA_isSome (ps : List (Nat × Nat)) (init : List (Nat × Nat)) (l : Nat)
    (h : (lookupA init l).isSome ∨ ∃ p ∈ ps, p.2 = l) :
    (lookupA (ps.foldl (fun m p => insertA p.2 p.1 m) init) l).isSome := by
  induction ps generalizing init with
  | nil =>
    rcases h with h | ⟨p, hp, _⟩
    · exact h
    · cases hp
  | cons q ps ih =>
    simp only [List.foldl_cons]
    apply ih
    rcases h with h | ⟨p, hp, hpl⟩
    · exact Or.inl (lookupA_insertA_isSome init q.2 l q.1 h)
    · rcases List.mem_cons.mp hp with rfl | hmem
      · exact Or.inl (by rw [hpl, lookupA_insertA_self]; rfl)
      · exact Or.inr ⟨p, hmem, hpl⟩

theorem rebuildLabelToId_covers (labels : List Nat) (l : Nat) (h : l ∈ labels) :
    (lookupA (rebuildLabelToId labels) l).isSome := by
  apply foldl_insertA_isSome
  right
  obtain ⟨i, hi, hget⟩ := List.mem_iff_getElem.mp h
  refine ⟨(i, l), ?_, rfl⟩
  rw [List.mem_enum_iff_getElem?]
  simp [List.getElem?_eq_getElem hi, hget]

/-- C7: after `save` followed by `load`, the deleted set is empty and every
label recorded in `id_to_label` has an entry in the rebuilt label map, so
every stored internal id — tombstoned or not — is live again; the rest of
the graph state survives the round trip unchanged. -/
theorem hnsw_save_load_resurrects (tgt src : HnswIndex) :
    ((tgt.load src.save).inner.deleted = ∅) ∧
    (∀ l ∈ (tgt.load src.save).inner.id_to_label,
      (lookupA (tgt.load src.save).inner.label_to_id l).isSome) ∧
    ((tgt.load src.save).inner.id_to_label = src.inner.id_to_label) ∧
    ((tgt.load src.save).inner.vectors = src.inner.vectors) ∧
    ((tgt.load src.save).inner.layers = src.inner.layers) ∧
    ((tgt.load src.save).inner.node_levels = src.inner.node_levels) ∧
    ((tgt.load src.save).inner.entry_point = src.inner.entry_point) ∧
    ((tgt.load src.save).inner.max_level = src.inner.max_level) ∧
    (∀ id, id ∉ (tgt.load src.save).inner.deleted) := by
  refine ⟨rfl, ?_, rfl, rfl, rfl, rfl, rfl, rfl, ?_⟩
  · intro l hl
    exact rebuildLabelToId_covers _ l hl
  · intro id
    simp [HnswIndex.load]

/-- Witness for C7: saving an index in which label 7 was tombstoned and
loading the blob back leaves the deleted set empty and label 7 mapped
again. -/
theorem hnsw_save_load_resurrects_witness :
    ((hnswC6Input.load ((hnswC6Input.delete 7).save)).inner.deleted = ∅) ∧
    ((lookupA (hnswC6Input.load
        ((hnswC6Input.delete 7).save)).inner.label_to_id 7).isSome) := by
  have h := hnsw_save_load_resurrects hnswC6Input (hnswC6Input.delete 7)
  exact ⟨h.1, Option.isSome_iff_exists.mpr
    (Option.isSome_iff_exists.mp (h.2.1 7 (by decide)))⟩

/-! ## C8 — the flat index load path does not validate `dim` -/

/-- Counterexample to C8 as stated: loading a file whose header says
`dim = 3` into an index configured with dimension 2 is *not* rejected — it
succeeds and silently overwrites the index's dimension with 3.  The file
below is `dim=3 | count=0 | metric=1`, exactly the bytes `save` would emit
for an empty 3-dimensional L2 index. -/
theorem flat_load_dim_counterexample :
    (FlatIndex.new 2 .l2).dimension = 2 ∧
    FlatIndex.load (FlatIndex.new 2 .l2)
        [3, 0, 0, 0, 0, 0, 0, 0, 0, 0, 0, 0, 1]
      = .ok { dimension := 3, metric := .l2, inner := ⟨[], [], [], 0⟩ } := by
  constructor
  · rfl
  · rfl

theorem foldl_insertA_lookup (ps : List (Nat × Nat)) (init : List (Nat × Nat)) (k : Nat) :
    lookupA (ps.foldl (fun m p => insertA p.2 p.1 m) init) k
      = match ps.reverse.find? (fun p => p.2 == k) with
        | some p => some p.1
        | none => lookupA init k := by
  induction ps generalizing init with
  | nil => simp
  | cons q ps ih =>
    simp only [List.foldl_cons, List.reverse_cons, List.find?_append]
    rw [ih]
    cases hfind : ps.reverse.find? (fun p => p.2 == k) with
    | some p => simp [Option.or]
    | none =>
      simp only [Option.none_or]
      by_cases hq : q.2 = k
      · subst hq
        simp [List.find?, lookupA_insertA_self]
      · rw [lookupA_insertA_ne init q.2 k q.1 (fun hc => hq hc.symm)]
        have hb : (q.2 == k) = false := by simpa using hq
        simp [List.find?, hb]

theorem lookup_rebuildLabelToIdx (labels : List Nat) (hnd : labels.Nodup)
    (i : Nat) (hi : i < labels.length) :
    lookupA (rebuildLabelToIdx labels) labels[i] = some i := by
  unfold rebuildLabelToIdx
  rw [foldl_insertA_lookup]
  have hmem : (i, labels[i]) ∈ labels.enum.reverse := by
    rw [List.mem_reverse, List.mem_enum_iff_getElem?]
    simp [List.getElem?_eq_getElem hi]
  have hsome : (labels.enum.reverse.find? (fun p => p.2 == labels[i])).isSome := by
    rw [List.find?_isSome]
    exact ⟨(i, labels[i]), hmem, by simp⟩
  obtain ⟨q, hq⟩ := Option.isSome_iff_exists.mp hsome
  have hqmem : q ∈ labels.enum := List.mem_reverse.mp (List.mem_of_find?_eq_some hq)
  have hqpred : q.2 = labels[i] := by simpa using List.find?_some hq
  have hq1 : labels[q.1]? = some q.2 := List.mem_enum_iff_getElem?.mp hqmem
  have hq1lt : q.1 < labels.length := by
    by_contra hge
    rw [List.getElem?_eq_none (by omega)] at hq1
    cases hq1
  have hq2 : labels[q.1] = labels[i] := by
    rw [List.getElem?_eq_getElem hq1lt] at hq1
    rw [Option.some_inj.mp hq1]
    exact hqpred
  have : q.1 = i := (List.Nodup.getElem_inj_iff hnd).mp hq2
  rw [hq]
  simp [← this]

/-- C8 amended: `FlatIndex::load` performs no `dim` validation — a
successful parse always yields `.ok`, with the index's dimension overwritten
by the file's `dim` value whatever the configured dimension was — and it
rebuilds the label map while scanning, so that (for the duplicate-free label
arrays that `save` produces) the map sends `labels[i]` to `i` for every
position `i`. -/
theorem flat_load_behaviour
    (idx : FlatIndex) (file : List Nat) (dim : Nat) (recs : List (Nat × List ℚ))
    (h : flatParseFile file = some (dim, recs)) :
    FlatIndex.load idx file = .ok
      { dimension := dim
        metric := idx.metric
        inner :=
          { labels := recs.map Prod.fst
            vectors := recs.map Prod.snd
            label_to_idx := rebuildLabelToIdx (recs.map Prod.fst)
            deleted_count := idx.inner.deleted_count } } ∧
    ((recs.map Prod.fst).Nodup →
      ∀ i (hi : i < (recs.map Prod.fst).length),
        lookupA (rebuildLabelToIdx (recs.map Prod.fst)) ((recs.map Prod.fst)[i]) = some i) := by
  constructor
  · simp [FlatIndex.load, h]
  · intro hnd i hi
    exact lookup_rebuildLabelToIdx _ hnd i hi

/-- Witness for C8's amended theorem: a file with two records
(`dim=1`, labels 5 and 6, payloads `1.0f32` (`0x3f800000`) and `2.0f32`
(`0x40000000`)). -/
theorem flat_load_behaviour_witness :
    FlatIndex.load (FlatIndex.new 1 .ip)
        [1, 0, 0, 0,
         2, 0, 0, 0, 0, 0, 0, 0,
         5, 0, 0, 0, 0, 0, 0, 0, 0, 0, 128, 63,
         6, 0, 0, 0, 0, 0, 0, 0, 0, 0, 0, 64,
         2]
      = .ok
        { dimension := 1
          metric := .ip
          inner :=
            { labels := [5, 6]
              vectors := [[f32DecodeBits 1065353216], [f32DecodeBits 1073741824]]
              label_to_idx := rebuildLabelToIdx [5, 6]
              deleted_count := 0 } } ∧
    lookupA (rebuildLabelToIdx [5, 6]) 5 = some 0 ∧
    lookupA (rebuildLabelToIdx [5, 6]) 6 = some 1 := by
  have h := flat_load_behaviour (FlatIndex.new 1 .ip)
    [1, 0, 0, 0,
     2, 0, 0, 0, 0, 0, 0, 0,
     5, 0, 0, 0, 0, 0, 0, 0, 0, 0, 128, 63,
     6, 0, 0, 0, 0, 0, 0, 0, 0, 0, 0, 64,
     2] 1 [(5, [f32DecodeBits 1065353216]), (6, [f32DecodeBits 1073741824])] (by rfl)
  refine ⟨h.1, ?_, ?_⟩
  · exact h.2 (by decide) 0 (by decide)
  · exact h.2 (by decide) 1 (by decide)

/-! ## C3 — flat-index search: exact top-K -/

theorem ratSqrt_one : ratSqrt 1 = 1 := by
  norm_num [ratSqrt]

theorem normalize_vector_unit (v : List ℚ) (h : sumSquares v = 1) :
    normalize_vector v = v := by
  unfold normalize_vector
  rw [h, ratSqrt_one]
  simp

theorem cosine_similarity_unit (q v : List ℚ) (hq : sumSquares q = 1)
    (hv : sumSquares v = 1) : cosine_similarity q v = inner_product q v := by
  unfold cosine_similarity
  rw [hq, hv, ratSqrt_one]
  norm_num

theorem flat_search_eq_referenceAux (idx : FlatIndex) (query : List ℚ) (top_k : Nat)
    (h1 : query.length = idx.dimension)
    (h3 : idx.metric = .cosine → sumSquares query = 1)
    (h4 : idx.metric = .cosine → ∀ v ∈ idx.inner.vectors, sumSquares v = 1) :
    idx.search query top_k
      = .ok ⟨(referenceTopK idx.metric idx.inner.labels idx.inner.vectors query top_k).map
               Prod.fst,
             (referenceTopK idx.metric idx.inner.labels idx.inner.vectors query top_k).map
               Prod.snd⟩ := by
  unfold FlatIndex.search referenceTopK
  rw [if_neg (by rw [h1]; simp)]
  by_cases hcase : (idx.inner.labels.isEmpty || top_k == 0) = true
  · rw [if_pos hcase]
    rcases (by simpa using hcase : idx.inner.labels.isEmpty = true ∨ top_k = 0) with he | hk
    · have : idx.inner.labels = [] := List.isEmpty_iff.mp he
      simp [this]
    · simp [hk]
  · rw [if_neg hcase]
    have hmap : (idx.inner.labels.zip idx.inner.vectors).map
        (fun lv => (lv.1,
          compute_score (if idx.metric = .cosine then Metric.ip else idx.metric)
            (if idx.metric = .cosine then normalize_vector query else query) lv.2))
        = (idx.inner.labels.zip idx.inner.vectors).map
          (fun lv => (lv.1, referenceScore idx.metric query lv.2)) := by
      apply List.map_congr_left
      intro lv hlv
      have hv : lv.2 ∈ idx.inner.vectors := (List.of_mem_zip hlv).2
      cases hmet : idx.metric with
      | ip => simp [compute_score, referenceScore]
      | l2 => simp [compute_score, referenceScore]
      | cosine =>
        have hq1 : sumSquares query = 1 := h3 hmet
        have hv1 : sumSquares lv.2 = 1 := h4 hmet lv.2 hv
        simp [compute_score, referenceScore,
          normalize_vector_unit query hq1, cosine_similarity_unit query lv.2 hq1 hv1]
    simp only [hmap]

/-- C3: for every flat index and every query of the index's dimension (with
the query — and, for cosine, the stored vectors — L2-normalised),
`search(q, K)` returns label/score pairs of length `min(K, n)`, sorted by
descending score, equal to the top-K by the metric's reference score
computed by brute force over all stored vectors. -/
theorem flat_search_topk_correct (idx : FlatIndex) (query : List ℚ) (top_k : Nat)
    (h1 : query.length = idx.dimension)
    (h2 : idx.inner.labels.length = idx.inner.vectors.length)
    (h3 : idx.metric = .cosine → sumSquares query = 1)
    (h4 : idx.metric = .cosine → ∀ v ∈ idx.inner.vectors, sumSquares v = 1) :
    ∃ res, idx.search query top_k = .ok res ∧
      res.ids.length = min top_k idx.inner.labels.length ∧
      res.scores.length = min top_k idx.inner.labels.length ∧
      res.scores.Sorted (· ≥ ·) ∧
      res.ids = (referenceTopK idx.metric idx.inner.labels idx.inner.vectors query
        top_k).map Prod.fst ∧
      res.scores = (referenceTopK idx.metric idx.inner.labels idx.inner.vectors query
        top_k).map Prod.snd := by
  refine ⟨_, flat_search_eq_referenceAux idx query top_k h1 h3 h4, ?_, ?_, ?_, rfl, rfl⟩
  · simp [referenceTopK, List.length_take, List.length_mergeSort, List.length_zip, ← h2]
  · simp [referenceTopK, List.length_take, List.length_mergeSort, List.length_zip, ← h2]
  · have htrans : ∀ a b c : Nat × ℚ, (fun x y : Nat × ℚ => decide (y.2 ≤ x.2)) a b = true →
        (fun x y : Nat × ℚ => decide (y.2 ≤ x.2)) b c = true →
        (fun x y : Nat × ℚ => decide (y.2 ≤ x.2)) a c = true := by
      intro a b c hab hbc
      simp only [decide_eq_true_eq] at *
      exact le_trans hbc hab
    have htotal : ∀ a b : Nat × ℚ, ((fun x y : Nat × ℚ => decide (y.2 ≤ x.2)) a b
        || (fun x y : Nat × ℚ => decide (y.2 ≤ x.2)) b a) = true := by
      intro a b
      rcases le_total a.2 b.2 with h | h <;> simp [h]
    have hp := List.sorted_mergeSort htrans htotal
      ((idx.inner.labels.zip idx.inner.vectors).map
        (fun lv => (lv.1, referenceScore idx.metric query lv.2)))
    have hp2 : List.Pairwise (fun a b : Nat × ℚ => b.2 ≤ a.2)
        (((idx.inner.labels.zip idx.inner.vectors).map
          (fun lv => (lv.1, referenceScore idx.metric query lv.2))).mergeSort
          fun a b : Nat × ℚ => decide (b.2 ≤ a.2)) := by
      exact hp.imp (by intro a b hab; simpa using hab)
    have hp3 := List.Pairwise.sublist (List.take_sublist top_k _) hp2
    unfold referenceTopK
    exact List.pairwise_map.mpr (hp3.imp fun hab => hab)

/-- Witness for C3: a one-vector cosine index queried with a unit vector. -/
theorem flat_search_topk_correct_witness :
    ∃ res, FlatIndex.search ⟨1, .cosine, ⟨[5], [[1]], [(5, 0)], 0⟩⟩ [1] 2 = .ok res ∧
      res.ids.length = min 2 1 ∧
      res.scores.length = min 2 1 ∧
      res.scores.Sorted (· ≥ ·) ∧
      res.ids = (referenceTopK .cosine [5] [[1]] [1] 2).map Prod.fst ∧
      res.scores = (referenceTopK .cosine [5] [[1]] [1] 2).map Prod.snd :=
  flat_search_topk_correct ⟨1, .cosine, ⟨[5], [[1]], [(5, 0)], 0⟩⟩ [1] 2
    (by decide) (by decide)
    (fun _ => by simp [sumSquares])
    (fun _ => by intro v hv; simp at hv; simp [hv, sumSquares])

/-! ## C5 — mid-batch dimension mismatch -/

theorem upsertOne_config {σ : Type} (ops : IndexOps σ) (hash : String → Nat)
    (c : CollectionState σ) (d : List (String × Value)) :
    (upsertOne ops hash c d).1.config = c.config := by
  unfold upsertOne
  dsimp only
  split <;> (try split) <;> (try split) <;> (try split) <;> (try split) <;> rfl

theorem upsertOne_dim_error {σ : Type} (ops : IndexOps σ) (hash : String → Nat)
    (c : CollectionState σ) (d : List (String × Value))
    (h2 : (extractVec c.config d).isEmpty = false)
    (h3 : (extractVec c.config d).length ≠ c.config.dimension) :
    ((upsertOne ops hash c d).2
      = .error (.dimensionMismatch c.config.dimension (extractVec c.config d).length)) ∧
    ((upsertOne ops hash c d).1.records = c.records) ∧
    ((upsertOne ops hash c d).1.indexes = c.indexes) := by
  unfold upsertOne
  dsimp only
  rw [if_pos (by simp [h2, h3])]
  split <;> (try split) <;> simp

theorem upsertOne_error_state {σ : Type} (ops : IndexOps σ) (hash : String → Nat)
    (c : CollectionState σ) (d : List (String × Value)) (c' : CollectionState σ)
    (e : VectorDbError) (h : upsertOne ops hash c d = (c', .error e)) :
    c'.records = c.records ∧ c'.indexes = c.indexes := by
  unfold upsertOne at h
  dsimp only at h
  split at h
  · injection h with h1 h2
    subst h1
    split <;> (try split) <;> simp
  · injection h with h1 h2
    cases h2

theorem upsertOne_ok_records {σ : Type} (ops : IndexOps σ) (hash : String → Nat)
    (c : CollectionState σ) (d : List (String × Value)) (c' : CollectionState σ)
    (id : Value) (h : upsertOne ops hash c d = (c', .ok id)) (k : Nat)
    (hk : (lookupA c.records k).isSome) : (lookupA c'.records k).isSome := by
  unfold upsertOne at h
  dsimp only at h
  split at h
  · injection h with h1 h2
    cases h2
  · injection h with h1 h2
    subst h1
    apply lookupA_insertA_isSome
    split <;> (try split) <;> (try split) <;> simpa using hk

theorem upsertOne_inserts_pk {σ : Type} (ops : IndexOps σ) (hash : String → Nat)
    (c : CollectionState σ) (d : List (String × Value)) (pk : String) (v : Value)
    (hpk : c.config.primary_key = some pk) (hv : getField d pk = some v)
    (c' : CollectionState σ) (id : Value) (h : upsertOne ops hash c d = (c', .ok id)) :
    (lookupA c'.records (value_to_u64 hash v)).isSome := by
  unfold upsertOne at h
  rw [hpk] at h
  dsimp only at h
  rw [hv] at h
  dsimp only at h
  split at h
  · injection h with h1 h2
    cases h2
  · injection h with h1 h2
    subst h1
    simp [lookupA_insertA_self]

theorem upsert_data_preserves_key {σ : Type} (ops : IndexOps σ) (hash : String → Nat)
    (l : List (List (String × Value))) (c : CollectionState σ) (k : Nat)
    (hk : (lookupA c.records k).isSome) :
    (lookupA (upsert_data ops hash c l).1.records k).isSome := by
  induction l generalizing c with
  | nil => simpa [upsert_data] using hk
  | cons d rest ih =>
    unfold upsert_data
    cases hstep : upsertOne ops hash c d with
    | mk c' r =>
      cases r with
      | error e =>
        dsimp only
        rw [(upsertOne_error_state ops hash c d c' e hstep).1]
        exact hk
      | ok id =>
        dsimp only
        have hk' := upsertOne_ok_records ops hash c d c' id hstep k hk
        have hres := ih c' hk'
        cases hrest : upsert_data ops hash c' rest with
        | mk c'' r2 =>
          rw [hrest] at hres
          cases r2 <;> simpa using hres

theorem upsert_data_cons_err {σ : Type} (ops : IndexOps σ) (hash : String → Nat)
    (c : CollectionState σ) (d : List (String × Value))
    (rest : List (List (String × Value))) (c' : CollectionState σ) (e : VectorDbError)
    (hstep : upsertOne ops hash c d = (c', .error e)) :
    upsert_data ops hash c (d :: rest) = (c', .error e) := by
  unfold upsert_data
  rw [hstep]

theorem upsert_data_cons_ok {σ : Type} (ops : IndexOps σ) (hash : String → Nat)
    (c : CollectionState σ) (d : List (String × Value))
    (rest : List (List (String × Value))) (c' : CollectionState σ) (id : Value)
    (hstep : upsertOne ops hash c d = (c', .ok id)) :
    upsert_data ops hash c (d :: rest)
      = ((upsert_data ops hash c' rest).1,
         match (upsert_data ops hash c' rest).2 with
         | .error e => .error e
         | .ok ids => .ok (id :: ids)) := by
  conv_lhs => rw [upsert_data]
  rw [hstep]
  dsimp only
  rcases hrest : upsert_data ops hash c' rest with ⟨a, b⟩
  cases b <;> rfl

/-- C5: when a batch contains a record whose extracted vector is non-empty
with length different from the configured dimension, `upsert_data` returns
`DimensionMismatch`; every record before it is already committed — the final
record map and index map are exactly those after applying the prefix, and
every prefix record that supplied a primary key is still present — while the
failing record and everything after it leave the record and index maps
untouched (no rollback of any kind). -/
theorem upsert_mid_batch_dimension_mismatch {σ : Type} (ops : IndexOps σ)
    (hash : String → Nat) (c : CollectionState σ)
    (pre : List (List (String × Value))) (bad : List (String × Value))
    (post : List (List (String × Value))) (ids : List Value)
    (h1 : (upsert_data ops hash c pre).2 = .ok ids)
    (h2 : (extractVec c.config bad).isEmpty = false)
    (h3 : (extractVec c.config bad).length ≠ c.config.dimension) :
    ((upsert_data ops hash c (pre ++ bad :: post)).2
      = .error (.dimensionMismatch c.config.dimension (extractVec c.config bad).length)) ∧
    ((upsert_data ops hash c (pre ++ bad :: post)).1.records
      = (upsert_data ops hash c pre).1.records) ∧
    ((upsert_data ops hash c (pre ++ bad :: post)).1.indexes
      = (upsert_data ops hash c pre).1.indexes) ∧
    (∀ pk, c.config.primary_key = some pk →
      ∀ d ∈ pre, ∀ v, getField d pk = some v →
        (lookupA (upsert_data ops hash c (pre ++ bad :: post)).1.records
          (value_to_u64 hash v)).isSome) := by
  induction pre generalizing c ids with
  | nil =>
    obtain ⟨he, hr, hi⟩ := upsertOne_dim_error ops hash c bad h2 h3
    simp only [List.nil_append]
    cases hstep : upsertOne ops hash c bad with
    | mk c' r =>
      rw [hstep] at he hr hi
      cases r with
      | ok id => cases he
      | error e =>
        simp only at he
        refine ⟨?_, ?_, ?_, ?_⟩
        · unfold upsert_data
          rw [hstep]
          simpa using he
        · unfold upsert_data
          rw [hstep]
          simpa [upsert_data] using hr
        · unfold upsert_data
          rw [hstep]
          simpa [upsert_data] using hi
        · intro pk _ d hd
          cases hd
  | cons d ds ih =>
    simp only [List.cons_append]
    rcases hstep : upsertOne ops hash c d with ⟨c', r⟩
    cases r with
    | error e =>
      rw [upsert_data_cons_err ops hash c d ds c' e hstep] at h1
      cases h1
    | ok id =>
      have hL := upsert_data_cons_ok ops hash c d (ds ++ bad :: post) c' id hstep
      have hR := upsert_data_cons_ok ops hash c d ds c' id hstep
      rw [hR] at h1
      have hds : ∃ ids', (upsert_data ops hash c' ds).2 = .ok ids' := by
        cases hsnd : (upsert_data ops hash c' ds).2 with
        | error e2 => rw [hsnd] at h1; cases h1
        | ok ids' => exact ⟨ids', rfl⟩
      obtain ⟨ids', hds⟩ := hds
      have hcfg : c'.config = c.config := by
        have := upsertOne_config ops hash c d
        rw [hstep] at this
        exact this
      have ihh := ih c' ids' hds (by rw [hcfg]; exact h2) (by rw [hcfg]; exact h3)
      rw [hcfg] at ihh
      refine ⟨?_, ?_, ?_, ?_⟩
      · rw [hL]
        dsimp only
        rw [ihh.1]
      · rw [hL, hR]
        dsimp only
        exact ihh.2.1
      · rw [hL, hR]
        dsimp only
        exact ihh.2.2.1
      · intro pk hpk d0 hd0 v hv
        rw [hL]
        dsimp only
        rcases List.mem_cons.mp hd0 with rfl | hmem
        · have hkey := upsertOne_inserts_pk ops hash c d0 pk v hpk hv c' id hstep
          exact upsert_data_preserves_key ops hash (ds ++ bad :: post) c'
            (value_to_u64 hash v) hkey
        · exact ihh.2.2.2 pk hpk d0 hmem v hv

/-- Witness for C5: a two-record batch against the dimension-1 demo schema,
whose second record carries a length-2 vector. -/
theorem upsert_mid_batch_dimension_mismatch_witness :
    ((upsert_data demoIndexOps demoHash
        (CollectionState.new (List (Nat × List ℚ)) demoConfig) (c5Pre ++ c5Bad :: [])).2
      = .error (.dimensionMismatch 1 2)) ∧
    ((upsert_data demoIndexOps demoHash
        (CollectionState.new (List (Nat × List ℚ)) demoConfig) (c5Pre ++ c5Bad :: [])).1.records
      = (upsert_data demoIndexOps demoHash
          (CollectionState.new (List (Nat × List ℚ)) demoConfig) c5Pre).1.records) ∧
    ((lookupA (upsert_data demoIndexOps demoHash
        (CollectionState.new (List (Nat × List ℚ)) demoConfig)
        (c5Pre ++ c5Bad :: [])).1.records 1).isSome) := by
  have h := upsert_mid_batch_dimension_mismatch demoIndexOps demoHash
    (CollectionState.new (List (Nat × List ℚ)) demoConfig) c5Pre c5Bad []
    [Value.num (.intVal 1)] (by rfl) (by rfl) (by decide)
  refine ⟨h.1, h.2.1, ?_⟩
  exact h.2.2.2 "id" rfl
    [("id", Value.num (.intVal 1)), ("vec", Value.arr [Value.num (.floatVal 1)])]
    (by simp [c5Pre]) (Value.num (.intVal 1)) rfl

/-! ## C1 — reopening a persisted collection -/

theorem lookupA_of_mem_nodup {α β : Type} [DecidableEq α] (l : List (α × β))
    (hnd : (l.map Prod.fst).Nodup) (k : α) (v : β) (h : (k, v) ∈ l) :
    lookupA l k = some v := by
  induction l with
  | nil => cases h
  | cons p rest ih =>
    rcases List.mem_cons.mp h with rfl | hmem
    · simp [lookupA]
    · have hne : p.1 ≠ k := by
        intro hc
        have hk : k ∈ rest.map Prod.fst := List.mem_map.mpr ⟨(k, v), hmem, rfl⟩
        rw [List.map_cons, hc] at hnd
        exact (List.nodup_cons.mp hnd).1 hk
      cases p with
      | mk k0 v0 =>
        rw [lookupA_cons, if_neg hne]
        exact ih (List.nodup_cons.mp (by simpa using hnd)).2 hmem

theorem lookupA_eq_none_of_not_mem {α β : Type} [DecidableEq α] (l : List (α × β))
    (k : α) (h : k ∉ l.map Prod.fst) : lookupA l k = none := by
  induction l with
  | nil => rfl
  | cons p rest ih =>
    cases p with
    | mk k0 v0 =>
      rw [lookupA_cons, if_neg (by simp at h; exact fun hc => h.1 hc.symm)]
      exact ih (by simp at h ⊢; exact h.2)

theorem eraseA_of_not_mem {α β : Type} [DecidableEq α] (l : List (α × β)) (k : α)
    (h : k ∉ l.map Prod.fst) : eraseA l k = l := by
  induction l with
  | nil => rfl
  | cons p rest ih =>
    cases p with
    | mk k0 v0 =>
      rw [eraseA_cons, if_neg (by simp at h; exact fun hc => h.1 hc.symm)]
      rw [ih (by simp at h ⊢; exact h.2)]

theorem foldl_insert_records_lookup (rs : List Record) (init : List (Nat × Record))
    (k : Nat) :
    lookupA (rs.foldl (fun m r => insertA r.label r m) init) k
      = match rs.reverse.find? (fun r => r.label == k) with
        | some r => some r
        | none => lookupA init k := by
  induction rs generalizing init with
  | nil => simp
  | cons q rs ih =>
    simp only [List.foldl_cons, List.reverse_cons, List.find?_append]
    rw [ih]
    cases hfind : rs.reverse.find? (fun r => r.label == k) with
    | some p => simp [Option.or]
    | none =>
      simp only [Option.none_or]
      by_cases hq : q.label = k
      · subst hq
        simp [List.find?, lookupA_insertA_self]
      · rw [lookupA_insertA_ne init q.label k q (fun hc => hq hc.symm)]
        have hb : (q.label == k) = false := by simpa using hq
        simp [List.find?, hb]

theorem lookupA_recover_eq (l : List (Nat × Record))
    (hnd : (l.map Prod.fst).Nodup) (hlab : ∀ p ∈ l, p.2.label = p.1) (k : Nat) :
    lookupA ((l.map Prod.snd).foldl (fun m r => insertA r.label r m) []) k
      = lookupA l k := by
  rw [foldl_insert_records_lookup]
  cases hf : (l.map Prod.snd).reverse.find? (fun r => r.label == k) with
  | none =>
    have hall := List.find?_eq_none.mp hf
    have hnotin : k ∉ l.map Prod.fst := by
      intro hk
      obtain ⟨p, hp, hpk⟩ := List.mem_map.mp hk
      have hr : p.2 ∈ (l.map Prod.snd).reverse :=
        List.mem_reverse.mpr (List.mem_map.mpr ⟨p, hp, rfl⟩)
      have := hall p.2 hr
      rw [hlab p hp, hpk] at this
      simp at this
    rw [lookupA_eq_none_of_not_mem l k hnotin]
    rfl
  | some r =>
    have hrmem : r ∈ l.map Prod.snd := List.mem_reverse.mp (List.mem_of_find?_eq_some hf)
    have hrk : r.label = k := by simpa using List.find?_some hf
    obtain ⟨p, hp, hpr⟩ := List.mem_map.mp hrmem
    have hp1 : p.1 = k := by rw [← hlab p hp, hpr, hrk]
    have hmem : (k, r) ∈ l := by
      have : p = (k, r) := by
        cases p with
        | mk a b =>
          simp only at hpr hp1
          rw [hpr, hp1]
      rw [← this]
      exact hp
    rw [lookupA_of_mem_nodup l hnd k r hmem]

theorem length_foldl_insert_records (rs : List Record) (init : List (Nat × Record))
    (hnd : (rs.map (·.label)).Nodup)
    (hdisj : ∀ r ∈ rs, r.label ∉ init.map Prod.fst) :
    (rs.foldl (fun m r => insertA r.label r m) init).length = init.length + rs.length := by
  induction rs generalizing init with
  | nil => simp
  | cons r rs ih =>
    simp only [List.foldl_cons]
    have hstep : insertA r.label r init = (r.label, r) :: init := by
      unfold insertA
      rw [eraseA_of_not_mem init r.label (hdisj r (List.mem_cons_self r rs))]
    rw [hstep]
    rw [ih ((r.label, r) :: init) (by simpa using hnd.of_cons)]
    · simp
      omega
    · intro r' hr'
      simp only [List.map_cons, List.mem_cons]
      push_neg
      constructor
      · intro hc
        have : r.label ∈ rs.map (·.label) := by
          rw [← hc]
          exact List.mem_map.mpr ⟨r', hr', rfl⟩
        exact (List.nodup_cons.mp (by simpa using hnd)).1 this
      · exact hdisj r' (List.mem_cons_of_mem r hr')

/-- Counterexample to C1 as stated: a collection with one record and one
named index `idx` answers a search before closing, but after a
persist-and-reopen round trip the very same search fails with
`IndexNotFound` — recovery never re-reads any index file (the reopened
collection's index map is empty), so search results do not match the closed
state. -/
theorem collection_reopen_counterexample :
    (search_by_vector demoIndexOps demoCollection "idx" [1] 1 0 none
      = .ok ⟨[⟨Value.num (.intVal 1), 0, [("id", Value.num (.intVal 1))]⟩]⟩) ∧
    (search_by_vector demoIndexOps
        (CollectionState.with_path (List (Nat × List ℚ)) demoCollection.config
          (some (demoCollection.persist demoIndexOps)))
        "idx" [1] 1 0 none
      = .error (.indexNotFound "idx")) :=
  ⟨rfl, rfl⟩

/-- C1 amended: reopening a persisted collection restores `count()` and
`fetch_data` over every primary key (only the records blob is re-read, with
the auto-id counter reset to `max(label)+1`), but named indexes are *not*
recovered: the reopened index map is empty, and every `search_by_vector`
fails with `IndexNotFound` instead of matching the closed state.  The
config blob is supplied by the caller, not re-read by
`Collection::try_recover`. -/
theorem collection_reopen_partial {σ : Type} (ops : IndexOps σ) (hash : String → Nat)
    (c : CollectionState σ)
    (hnd : (c.records.map Prod.fst).Nodup)
    (hlab : ∀ p ∈ c.records, p.2.label = p.1) :
    ((CollectionState.with_path σ c.config (some (c.persist ops))).count = c.count) ∧
    (∀ pks, fetch_data hash
        (CollectionState.with_path σ c.config (some (c.persist ops))) pks
      = fetch_data hash c pks) ∧
    ((CollectionState.with_path σ c.config (some (c.persist ops))).indexes = []) ∧
    (∀ name q limit offset f,
      search_by_vector ops (CollectionState.with_path σ c.config (some (c.persist ops)))
        name q limit offset f = .error (.indexNotFound name)) := by
  have hrec : (CollectionState.with_path σ c.config (some (c.persist ops))).records
      = (c.records.map Prod.snd).foldl (fun m r => insertA r.label r m) [] := rfl
  have hlook : ∀ k, lookupA (CollectionState.with_path σ c.config
      (some (c.persist ops))).records k = lookupA c.records k := by
    intro k
    rw [hrec]
    exact lookupA_recover_eq c.records hnd hlab k
  refine ⟨?_, ?_, rfl, ?_⟩
  · show (CollectionState.with_path σ c.config (some (c.persist ops))).records.length
      = c.records.length
    rw [hrec]
    have hnd2 : ((c.records.map Prod.snd).map (·.label)).Nodup := by
      rw [List.map_map]
      have heq : c.records.map ((·.label) ∘ Prod.snd) = c.records.map Prod.fst :=
        List.map_congr_left fun p hp => hlab p hp
      rw [heq]
      exact hnd
    rw [length_foldl_insert_records (c.records.map Prod.snd) [] hnd2 (by simp)]
    simp
  · intro pks
    unfold fetch_data
    simp only [show (CollectionState.with_path σ c.config (some (c.persist ops))).config
      = c.config from rfl]
    apply List.map_congr_left
    intro pk _
    rw [hlook]
  · intro name q limit offset f
    unfold search_by_vector
    rw [show (CollectionState.with_path σ c.config (some (c.persist ops))).indexes
      = [] from rfl]
    rfl

/-- Witness for C1's amended theorem on the one-record demo collection. -/
theorem collection_reopen_partial_witness :
    ((CollectionState.with_path (List (Nat × List ℚ)) demoCollection.config
        (some (demoCollection.persist demoIndexOps))).count = demoCollection.count) ∧
    (fetch_data demoHash
        (CollectionState.with_path (List (Nat × List ℚ)) demoCollection.config
          (some (demoCollection.persist demoIndexOps)))
        [Value.num (.intVal 1)]
      = fetch_data demoHash demoCollection [Value.num (.intVal 1)]) ∧
    ((CollectionState.with_path (List (Nat × List ℚ)) demoCollection.config
        (some (demoCollection.persist demoIndexOps))).indexes = []) := by
  have h := collection_reopen_partial demoIndexOps demoHash demoCollection
    (by decide) (by decide)
  exact ⟨h.1, h.2.1 [Value.num (.intVal 1)], h.2.2.1⟩

/-! ## C2 — the atomic-write discipline -/

/-- Counterexample to C2 as stated: `Collection::persist` writes the config
blob with `std::fs::write` (truncate, then fill) — no sibling `.tmp` file
and no rename.  A reader between the truncation and the write observes an
empty config file: neither the previous complete contents `[49]` nor the
next complete contents `[50]`. -/
theorem persist_not_atomic_counterexample :
    (obsAfter c2Fs0 (Collection.persistOps "c" [50] [51] []) 1
        "c/collection_config.json" = some []) ∧
    (c2Fs0 "c/collection_config.json" = some [49]) ∧
    (runOps c2Fs0 (Collection.persistOps "c" [50] [51] [])
        "c/collection_config.json" = some [50]) ∧
    (some ([] : List Nat) ≠ some [49]) ∧ (some ([] : List Nat) ≠ some [50]) :=
  ⟨rfl, rfl, rfl, by decide, by decide⟩

/-- C2 amended: only the file KV store's `put` follows the sibling-`.tmp`
plus rename discipline — a reader then observes either the previous or the
next complete contents at every intermediate point (provided the temp path
differs from the destination, i.e. the key does not itself end in `.tmp`).
`Collection::persist` and the index save paths write their destination
files directly and perform no rename at all. -/
theorem filestore_put_atomic_persist_direct (key : String) (value : List Nat)
    (fs0 : FsState) (h : withExtTmp key ≠ key) :
    (∀ n, obsAfter fs0 (FileStore.putOps key value) n key = fs0 key ∨
          obsAfter fs0 (FileStore.putOps key value) n key = some value) ∧
    (∀ dir cb rb ixf, ∀ op ∈ Collection.persistOps dir cb rb ixf,
      ∀ src dst, op ≠ FsOp.renameFile src dst) := by
  constructor
  · intro n
    match n with
    | 0 => exact Or.inl rfl
    | 1 =>
      left
      show applyOp fs0 (.createFile (withExtTmp key)) key = fs0 key
      simp only [applyOp]
      rw [if_neg (fun hc => h hc.symm)]
    | 2 =>
      left
      show applyOp (applyOp fs0 (.createFile (withExtTmp key)))
        (.writeAll (withExtTmp key) value) key = fs0 key
      simp only [applyOp]
      rw [if_neg (fun hc => h hc.symm), if_neg (fun hc => h hc.symm)]
    | (n + 3) =>
      right
      have ht : (FileStore.putOps key value).take (n + 3) = FileStore.putOps key value :=
        List.take_of_length_le (by simp [FileStore.putOps])
      unfold obsAfter
      rw [ht]
      simp [runOps, FileStore.putOps, applyOp]
  · intro dir cb rb ixf op hop src dst
    simp only [Collection.persistOps, List.mem_append, List.mem_cons,
      List.mem_flatMap, List.not_mem_nil, or_false] at hop
    rcases hop with (rfl | rfl | rfl | rfl) | ⟨pf, _, rfl | rfl⟩ <;>
      intro hc <;> cases hc

/-- Witness for C2's amended theorem: a put of `[1]` under `a/records.json`
observed mid-trace, and the absence of renames in a persist trace. -/
theorem filestore_put_atomic_witness :
    (obsAfter (fun _ => none) (FileStore.putOps "a/records.json" [1]) 2
        "a/records.json" = (fun _ => none : FsState) "a/records.json" ∨
     obsAfter (fun _ => none) (FileStore.putOps "a/records.json" [1]) 2
        "a/records.json" = some [1]) ∧
    (∀ src dst,
      FsOp.createFile ("c" ++ "/collection_config.json") ≠ FsOp.renameFile src dst) := by
  have h := filestore_put_atomic_persist_direct "a/records.json" [1] (fun _ => none)
    (by decide)
  exact ⟨h.1 2, h.2 "c" [50] [51] [] (.createFile ("c" ++ "/collection_config.json"))
    (List.mem_cons_self _ _)⟩

/-! ## C9 — the `default` project -/

/-- Counterexample to C9 as stated: `delete_project("default")` removes the
default project, so "the project map contains a project named `default`"
does not hold across every operation sequence. -/
theorem project_group_delete_default_counterexample :
    "default" ∉ pgRun ProjectGroup.new [PGOp.deleteProject "default"] := by
  decide

theorem pgRun_keeps_default (s : List String) (ops : List PGOp)
    (hs : "default" ∈ s) (hops : PGOp.deleteProject "default" ∉ ops) :
    "default" ∈ pgRun s ops := by
  induction ops generalizing s with
  | nil => exact hs
  | cons op rest ih =>
    have hop : op ≠ .deleteProject "default" :=
      fun hc => hops (hc ▸ List.mem_cons_self op rest)
    apply ih
    · cases op with
      | createProject n =>
        by_cases hn : n ∈ s
        · simpa [pgRun, pgStep, hn] using hs
        · simp [pgRun, pgStep, hn]
          exact Or.inl hs
      | deleteProject n =>
        have hne : ("default" : String) ≠ n := by
          intro hc
          exact hop (by rw [← hc])
        simp only [pgRun, pgStep]
        exact (List.mem_erase_of_ne hne).mpr hs
    · exact fun hc => hops (List.mem_cons_of_mem op hc)

/-- C9 amended: the `default` project is present at construction (volatile)
and after open (persistent, created when missing), and `create_project`
fails with `ProjectAlreadyExists` for every name already present, including
`default`; but the "always present" invariant only holds for operation
sequences that never call `delete_project("default")` — that call removes
the default project. -/
theorem project_group_default_and_duplicates (scanned : List String)
    (ops : List PGOp) (hops : PGOp.deleteProject "default" ∉ ops) :
    ("default" ∈ pgRun ProjectGroup.new ops) ∧
    ("default" ∈ pgRun (ProjectGroup.with_path scanned) ops) ∧
    (∀ s n, n ∈ s → pgStep s (.createProject n)
      = (s, some (.projectAlreadyExists n))) := by
  refine ⟨?_, ?_, ?_⟩
  · exact pgRun_keeps_default _ ops (by simp [ProjectGroup.new]) hops
  · apply pgRun_keeps_default _ ops ?_ hops
    unfold ProjectGroup.with_path
    dsimp only
    split
    · assumption
    · simp
  · intro s n hn
    simp [pgStep, hn]

/-- Witness for C9 at a concrete scanned directory and operation list. -/
theorem project_group_default_witness :
    ("default" ∈ pgRun ProjectGroup.new
      [PGOp.createProject "q", PGOp.deleteProject "q"]) ∧
    ("default" ∈ pgRun (ProjectGroup.with_path ["p1"])
      [PGOp.createProject "q", PGOp.deleteProject "q"]) ∧
    (pgStep ["default"] (.createProject "default")
      = (["default"], some (.projectAlreadyExists "default"))) := by
  have h := project_group_default_and_duplicates ["p1"]
    [PGOp.createProject "q", PGOp.deleteProject "q"] (by decide)
  exact ⟨h.1, h.2.1, h.2.2 ["default"] "default" (by decide)⟩

/-! ## C10 — non-integer, non-string primary keys all map to label 0 -/

/-- C10: every primary-key value that is neither an integer-represented
JSON number nor a string (fractional numbers, booleans, null, arrays,
objects) converts to label 0, so `fetch_data` and `delete_data` with any
such key behave exactly as with any other such key (here `null`), and an
upsert whose primary-key field holds such a value stores its record at
label 0 — distinct keys silently alias one another. -/
theorem value_to_u64_nonscalar_aliasing (hash : String → Nat) (v : Value)
    (hnum : ∀ i, v ≠ .num (.intVal i)) (hstr : ∀ s, v ≠ .str s) :
    (value_to_u64 hash v = 0) ∧
    (∀ (σ : Type) (c : CollectionState σ),
      fetch_data hash c [v] = fetch_data hash c [Value.null]) ∧
    (∀ (σ : Type) (ops : IndexOps σ) (c : CollectionState σ),
      delete_data ops hash c [v] = delete_data ops hash c [Value.null]) ∧
    (∀ (σ : Type) (ops : IndexOps σ) (c : CollectionState σ)
      (d : List (String × Value)) (pk : String),
      c.config.primary_key = some pk → getField d pk = some v →
      (extractVec c.config d).isEmpty = true →
      (lookupA (upsertOne ops hash c d).1.records 0).isSome) := by
  have h0 : value_to_u64 hash v = 0 := by
    cases v with
    | num n =>
      cases n with
      | intVal i => exact absurd rfl (hnum i)
      | floatVal q => rfl
    | str s => exact absurd rfl (hstr s)
    | null => rfl
    | bool b => rfl
    | arr xs => rfl
    | obj kvs => rfl
  have hv0 : value_to_u64 hash v = value_to_u64 hash Value.null := by rw [h0]; rfl
  refine ⟨h0, ?_, ?_, ?_⟩
  · intro σ c
    unfold fetch_data
    simp only [List.map_cons, List.map_nil, hv0]
  · intro σ ops c
    unfold delete_data
    simp only [List.foldl_cons, List.foldl_nil, hv0]
  · intro σ ops c d pk hpk hv hvec
    unfold upsertOne
    rw [hpk]
    dsimp only
    rw [hv]
    dsimp only
    rw [if_neg (by simp [hvec])]
    dsimp only
    simp [hvec, h0, lookupA_insertA_self]

/-- Witness for C10 with the boolean key `true` against the demo schema. -/
theorem value_to_u64_nonscalar_aliasing_witness :
    (value_to_u64 demoHash (Value.bool true) = 0) ∧
    (fetch_data demoHash demoCollection [Value.bool true]
      = fetch_data demoHash demoCollection [Value.null]) ∧
    ((lookupA (upsertOne demoIndexOps demoHash
        (CollectionState.new (List (Nat × List ℚ)) demoConfig)
        [("id", Value.bool true)]).1.records 0).isSome) := by
  have h := value_to_u64_nonscalar_aliasing demoHash (Value.bool true)
    (fun i hc => by cases hc) (fun s hc => by cases hc)
  exact ⟨h.1, h.2.1 (List (Nat × List ℚ)) demoCollection,
    h.2.2.2 (List (Nat × List ℚ)) demoIndexOps
      (CollectionState.new (List (Nat × List ℚ)) demoConfig)
      [("id", Value.bool true)] "id" rfl rfl rfl⟩

end OV

